import Mathlib

/-!
# Verification of the basementui reactive TUI library

Shallow embedding of the core of the `basementui` repository
(`go/signals/signal.go`, `go/basement/style.go`, the inline parser,
the layout engine and the double-buffered screen renderer), together
with proofs and refutations of the specified properties.
-/

set_option maxHeartbeats 1000000

namespace Basement

/-! ## Go values and `reflect.DeepEqual` (signal.go, `Signal.Set`)

`Signal.Set` compares the incoming value with the stored one using
`reflect.DeepEqual`.  We embed the fragment of Go values the claims
need: integers and booleans (comparable types) and slices
(non-comparable with `==`, but deep-traversed by `reflect.DeepEqual`).
-/

/-- A Go value: an `int`, a `bool`, or a slice of values.  Slices are
not comparable with Go `==`, but `reflect.DeepEqual` compares them
elementwise. -/
inductive GoVal where
  | int (n : Int)
  | bool (b : Bool)
  | slice (xs : List GoVal)
deriving Repr

/-- Embedding of `reflect.DeepEqual` on the `GoVal` fragment: basic
values compare by value, slices compare by length and deep elementwise
traversal. -/
def deepEqual : GoVal → GoVal → Bool
  | .int a, .int b => a == b
  | .bool a, .bool b => a == b
  | .slice xs, .slice ys => deepEqualList xs ys
  | _, _ => false
where
  /-- deep elementwise comparison of two slices. -/
  deepEqualList : List GoVal → List GoVal → Bool
  | [], [] => true
  | x :: xs, y :: ys => deepEqual x y && deepEqualList xs ys
  | _, _ => false

/-- Whether a Go value's type is comparable with the `==` operator
(Go spec: slices are not comparable). -/
def goComparable : GoVal → Bool
  | .int _ => true
  | .bool _ => true
  | .slice _ => false

/-- State of one signal holding a `GoVal`: the stored value and the
snapshot-notified subscriber list (`Signal.value`, `Signal.subscribers`). -/
structure GoSignal where
  value : GoVal
  subscribers : List Nat
deriving Repr

/-- Embedding of `Signal.Set` (signal.go lines 114-133): compare with
`reflect.DeepEqual`; if equal return without storing or notifying,
otherwise store the value, snapshot the subscribers and notify each of
them.  Returns the new signal state and the list of notified
subscribers. -/
def goSet (s : GoSignal) (v : GoVal) : GoSignal × List Nat :=
  if deepEqual s.value v then
    (s, [])
  else
    ({ s with value := v }, s.subscribers)

theorem deepEqual_int_iff (a b : Int) : deepEqual (.int a) (.int b) = true ↔ a = b := by
  simp [deepEqual]

theorem deepEqual_bool_iff (a b : Bool) : deepEqual (.bool a) (.bool b) = true ↔ a = b := by
  simp [deepEqual]

/-- On comparable values, `deepEqual` coincides with value equality. -/
theorem deepEqual_comparable (v w : GoVal) (hv : goComparable v = true) :
    deepEqual v w = true ↔ v = w := by
  cases v <;> cases w <;>
    simp_all [goComparable, deepEqual]

/-- C1, counterexample: a `Set` whose stored value and incoming value are
deeply-equal slices — a non-comparable Go type, on which the claim demands
that `set` always propagate — stores nothing and notifies nobody: the
notified list is empty rather than the subscriber list `[0]`. -/
theorem C1_counterexample :
    goComparable (GoVal.slice [GoVal.int 1]) = false
    ∧ goSet ⟨GoVal.slice [GoVal.int 1], [0]⟩ (GoVal.slice [GoVal.int 1])
        = (⟨GoVal.slice [GoVal.int 1], [0]⟩, []) :=
  ⟨rfl, rfl⟩

/-- C1, amended: `set(v)` compares `v` with the current value using deep
structural equality (`reflect.DeepEqual`).  On comparable values this is
exactly value equality, so an equal value returns without storing or
notifying and an unequal one stores and notifies every subscriber; a
non-comparable value is deep-traversed rather than treated as unequal:
it propagates exactly when the deep comparison fails (and is dropped
silently when the two values are deeply equal). -/
theorem C1_set_deepEqual_propagation (s : GoSignal) (v : GoVal) :
    (goComparable s.value = true → s.value = v → goSet s v = (s, []))
    ∧ (goComparable s.value = true → s.value ≠ v →
        goSet s v = ({ s with value := v }, s.subscribers))
    ∧ (deepEqual s.value v = false →
        goSet s v = ({ s with value := v }, s.subscribers))
    ∧ (deepEqual s.value v = true → goSet s v = (s, [])) := by
  refine ⟨?_, ?_, ?_, ?_⟩
  · intro hc he
    have : deepEqual s.value v = true := (deepEqual_comparable _ _ hc).mpr he
    simp [goSet, this]
  · intro hc hne
    have : deepEqual s.value v = false := by
      rcases h : deepEqual s.value v with _ | _
      · rfl
      · exact absurd ((deepEqual_comparable _ _ hc).mp h) hne
    simp [goSet, this]
  · intro h; simp [goSet, h]
  · intro h; simp [goSet, h]

/-- C1 witness: a deeply-unequal slice write stores and notifies. -/
theorem C1_set_deepEqual_propagation_witness :
    goSet ⟨GoVal.slice [GoVal.int 1], [2]⟩ (GoVal.slice [GoVal.int 2])
      = (⟨GoVal.slice [GoVal.int 2], [2]⟩, [2]) :=
  (C1_set_deepEqual_propagation ⟨GoVal.slice [GoVal.int 1], [2]⟩
    (GoVal.slice [GoVal.int 2])).2.2.1 rfl

/-! ## The reactive runtime (signal.go)

State cells (`Signal`), derived cells (`Computed`) and effects
(`Effect`), with the global active subscriber and batch state.  We
embed the fragment in which effect and computed bodies read plain
signals (`Signal.Get`) — the fragment every specified scenario lives
in.  Signal values are `Int` (on which `reflect.DeepEqual` is `==`).
Iteration over the `batchQueue` map is modelled by an explicit drain
order `ord`; any permutation of the queued set is a possible Go map
iteration order. -/

/-- Handle of a `Subscriber` (an `Effect` or a `Computed`). -/
inductive Sub where
  | eff (e : Nat)
  | comp (c : Nat)
deriving DecidableEq, Repr

/-- Handle of a `Dependency` (a `Signal` or a `Computed`). -/
inductive Dep where
  | sig (i : Nat)
  | comp (c : Nat)
deriving DecidableEq, Repr

/-- Body of an effect or computed function: a tree of tracked signal
reads (`Signal.Get`) ending in a returned value (effects discard it). -/
inductive Body where
  | ret (v : Int)
  | read (i : Nat) (k : Int → Body)

/-- The pure denotation of a body against a value environment: the
value the function computes when signal `i` currently holds `env i`. -/
def bodyVal : Body → (Nat → Int) → Int
  | .ret v, _ => v
  | .read i k, env => bodyVal (k (env i)) env

/-- The signals a body reads against a value environment, in read
order (with repetitions). -/
def bodyReads : Body → (Nat → Int) → List Nat
  | .ret _, _ => []
  | .read i k, env => i :: bodyReads (k (env i)) env

/-- One `Signal`: current value and subscriber set
(`map[Subscriber]struct{}`, kept as a duplicate-free list). -/
structure SigSt where
  value : Int
  subs : List Sub

/-- One `Computed`: function, cached value, dirty flag, dependency set,
subscriber set, plus a ghost counter of how often `fn` has run. -/
structure CompSt where
  body : Body
  value : Int
  dirty : Bool
  deps : List Dep
  subs : List Sub
  evals : Nat

/-- One `Effect`: function, dependency set, disposed flag. -/
structure EffSt where
  body : Body
  deps : List Dep
  disposed : Bool

/-- The whole runtime state: all signals, computeds and effects, the
global `activeSubscriber`, the batch depth and queue, and a ghost log
of effect-function invocations (in invocation order). -/
structure RState where
  sigs : Nat → SigSt
  comps : Nat → CompSt
  effs : Nat → EffSt
  active : Option Sub
  batchDepth : Nat
  batchQueue : List Nat
  runLog : List Nat

/-- Insert into a set kept as a list (`m[k] = struct{}{}`). -/
def insertIfAbsent [DecidableEq α] (x : α) (l : List α) : List α :=
  if x ∈ l then l else l ++ [x]

/-- Update one signal. -/
def updSig (st : RState) (i : Nat) (f : SigSt → SigSt) : RState :=
  { st with sigs := fun j => if j = i then f (st.sigs j) else st.sigs j }

/-- Update one computed. -/
def updComp (st : RState) (c : Nat) (f : CompSt → CompSt) : RState :=
  { st with comps := fun j => if j = c then f (st.comps j) else st.comps j }

/-- Update one effect. -/
def updEff (st : RState) (e : Nat) (f : EffSt → EffSt) : RState :=
  { st with effs := fun j => if j = e then f (st.effs j) else st.effs j }

/-- `Subscriber.addDependency`: record `d` in the subscriber's
dependency set. -/
def addDepOf (st : RState) (sub : Sub) (d : Dep) : RState :=
  match sub with
  | .eff e => updEff st e fun es => { es with deps := insertIfAbsent d es.deps }
  | .comp c => updComp st c fun cs => { cs with deps := insertIfAbsent d cs.deps }

/-- `Dependency.unsubscribe`: remove a subscriber from a dependency's
subscriber set (`delete(m, sub)`). -/
def unsubscribeDep (st : RState) (d : Dep) (sub : Sub) : RState :=
  match d with
  | .sig i => updSig st i fun ss => { ss with subs := ss.subs.filter (· ≠ sub) }
  | .comp c => updComp st c fun cs => { cs with subs := cs.subs.filter (· ≠ sub) }

/-- `Signal.Get` (signal.go lines 92-106): if a subscriber is active,
add the symmetric (cell, subscriber) link, then return the value. -/
def sigGet (st : RState) (i : Nat) : Int × RState :=
  match st.active with
  | none => ((st.sigs i).value, st)
  | some sub =>
      let st1 := addDepOf st sub (.sig i)
      let st2 := updSig st1 i fun ss => { ss with subs := insertIfAbsent sub ss.subs }
      ((st2.sigs i).value, st2)

/-- Run a body: every `read` goes through the tracked `Signal.Get`. -/
def interpBody : Body → RState → Int × RState
  | .ret v, st => (v, st)
  | .read i k, st =>
      let p := sigGet st i
      interpBody (k p.1) p.2

/-- `Effect.Run` (signal.go lines 279-315): short-circuit when
disposed; otherwise swap in a fresh dependency set, unsubscribe from
the old one, run the function with self as the active subscriber, and
restore the previous active subscriber.  The ghost `runLog` records
the `e.fn()` invocation. -/
def effRun (st : RState) (e : Nat) : RState :=
  if (st.effs e).disposed then st
  else
    let oldDeps := (st.effs e).deps
    let st1 := updEff st e fun es => { es with deps := [] }
    let st2 := oldDeps.foldl (fun acc d => unsubscribeDep acc d (.eff e)) st1
    let prev := st2.active
    let st3 := { st2 with active := some (.eff e), runLog := st2.runLog ++ [e] }
    let st4 := (interpBody (st3.effs e).body st3).2
    { st4 with active := prev }

/-- `Effect.onDependencyUpdated` (signal.go lines 263-277): if a batch
is active enqueue (dedup) and return, else run. -/
def effOnDep (st : RState) (e : Nat) : RState :=
  if 0 < st.batchDepth then
    { st with batchQueue := insertIfAbsent e st.batchQueue }
  else effRun st e

/-- `Computed.onDependencyUpdated` (signal.go lines 172-190): if
already dirty return; otherwise mark dirty, snapshot the subscribers
and notify each (`sub.onDependencyUpdated()`).  The fuel bounds the
computed-to-computed cascade depth (any execution of the Go code is
captured by a large enough fuel). -/
def compOnDep : Nat → Nat → RState → RState
  | 0, _, st => st
  | F + 1, c, st =>
      if (st.comps c).dirty then st
      else
        let st1 := updComp st c fun cs => { cs with dirty := true }
        ((st1.comps c).subs).foldl
          (fun acc s =>
            match s with
            | .eff e => effOnDep acc e
            | .comp c2 => compOnDep F c2 acc) st1

/-- Notify a snapshot of subscribers in order
(`sub.onDependencyUpdated()` for each). -/
def notifySubs (F : Nat) (l : List Sub) (st : RState) : RState :=
  l.foldl
    (fun acc s =>
      match s with
      | .eff e => effOnDep acc e
      | .comp c2 => compOnDep F c2 acc) st

/-- Unfolding of `compOnDep` at positive fuel, through `notifySubs`. -/
theorem compOnDep_succ (F c : Nat) (st : RState) :
    compOnDep (F + 1) c st =
      if (st.comps c).dirty then st
      else
        notifySubs F (((updComp st c fun cs => { cs with dirty := true }).comps c).subs)
          (updComp st c fun cs => { cs with dirty := true }) := rfl

/-- `Signal.Set` (signal.go lines 114-133) on `Int` values, where
`reflect.DeepEqual` is `==`: store if changed, snapshot subscribers,
notify each. -/
def sigSet (F : Nat) (i : Nat) (v : Int) (st : RState) : RState :=
  if (st.sigs i).value == v then st
  else
    let st1 := updSig st i fun ss => { ss with value := v }
    notifySubs F ((st1.sigs i).subs) st1

/-- First half of `Computed.Get` (signal.go lines 197-205): subscribe
the active caller, if any, with the symmetric link. -/
def compGetTrack (st : RState) (c : Nat) : RState :=
  match st.active with
  | none => st
  | some sub =>
      updComp (addDepOf st sub (.comp c)) c
        fun cs => { cs with subs := insertIfAbsent sub cs.subs }

/-- Second half of `Computed.Get` (signal.go lines 207-237): when
dirty, drop the old dependencies, evaluate with self active (ghost
`evals` counts the `c.fn()` call), cache the result, clear dirty,
restore the active subscriber; return the cached value. -/
def compGetEval (st1 : RState) (c : Nat) : Int × RState :=
  if (st1.comps c).dirty then
    let st2 := List.foldl (fun acc d => unsubscribeDep acc d (.comp c)) st1 (st1.comps c).deps
    let st3 := updComp st2 c fun cs => { cs with deps := [] }
    let prev := st3.active
    let st4 := updComp { st3 with active := some (.comp c) } c
      fun cs => { cs with evals := cs.evals + 1 }
    let p := interpBody (st4.comps c).body st4
    let st5 := updComp p.2 c fun cs => { cs with value := p.1, dirty := false }
    (p.1, { st5 with active := prev })
  else ((st1.comps c).value, st1)

/-- `Computed.Get` (signal.go lines 196-238). -/
def compGet (st : RState) (c : Nat) : Int × RState :=
  compGetEval (compGetTrack st c) c

/-- `Effect.Dispose` (signal.go lines 317-328): mark disposed,
unsubscribe from every dependency, clear the dependency set. -/
def effDispose (st : RState) (e : Nat) : RState :=
  if (st.effs e).disposed then st
  else
    let st1 := updEff st e fun es => { es with disposed := true }
    let st2 := (st1.effs e).deps.foldl (fun acc d => unsubscribeDep acc d (.eff e)) st1
    updEff st2 e fun es => { es with deps := [] }

/-- Entering `Batch` (signal.go line 39): increment the depth. -/
def batchEnter (st : RState) : RState :=
  { st with batchDepth := st.batchDepth + 1 }

/-- Leaving `Batch` (signal.go lines 42-56): decrement the depth; when
it reaches zero with a non-empty queue, take the queue, clear it, and
invoke `onDependencyUpdated` on each member in the map-iteration order
given by `ord`. -/
def batchExit (ord : List Nat → List Nat) (st : RState) : RState :=
  let st1 := { st with batchDepth := st.batchDepth - 1 }
  if st1.batchDepth = 0 ∧ st1.batchQueue ≠ [] then
    let q := ord st1.batchQueue
    let st2 := { st1 with batchQueue := [] }
    q.foldl (fun acc e => effOnDep acc e) st2
  else st1

mutual

/-- Client operations driving the runtime: `set`, top-level `get`s,
`dispose`, and (nested) `Batch`. -/
inductive Cmd where
  | setSig (i : Nat) (v : Int)
  | getSig (i : Nat)
  | getComp (c : Nat)
  | dispose (e : Nat)
  | batch (b : Cmds)

/-- A sequence of client operations. -/
inductive Cmds where
  | nil
  | cons (c : Cmd) (cs : Cmds)

end

mutual

/-- Execute one client operation. -/
def execCmd (F : Nat) (ord : List Nat → List Nat) : Cmd → RState → RState
  | .setSig i v, st => sigSet F i v st
  | .getSig i, st => (sigGet st i).2
  | .getComp c, st => (compGet st c).2
  | .dispose e, st => effDispose st e
  | .batch b, st => batchExit ord (execCmds F ord b (batchEnter st))

/-- Execute a sequence of client operations. -/
def execCmds (F : Nat) (ord : List Nat → List Nat) : Cmds → RState → RState
  | .nil, st => st
  | .cons c cs, st => execCmds F ord cs (execCmd F ord c st)

end

/-! ### Frame lemmas: what each runtime operation leaves untouched -/

theorem updSig_sigs (st : RState) (i : Nat) (f : SigSt → SigSt) (j : Nat) :
    (updSig st i f).sigs j = if j = i then f (st.sigs i) else st.sigs j := by
  by_cases h : j = i <;> simp [updSig, h]

theorem updComp_comps (st : RState) (c : Nat) (f : CompSt → CompSt) (j : Nat) :
    (updComp st c f).comps j = if j = c then f (st.comps c) else st.comps j := by
  by_cases h : j = c <;> simp [updComp, h]

theorem updEff_effs (st : RState) (e : Nat) (f : EffSt → EffSt) (j : Nat) :
    (updEff st e f).effs j = if j = e then f (st.effs e) else st.effs j := by
  by_cases h : j = e <;> simp [updEff, h]

/-- Fields `sigGet` never touches, and the facts that it preserves
every signal's value and every effect's body and disposed flag. -/
theorem sigGet_frame (st : RState) (i : Nat) :
    (sigGet st i).2.runLog = st.runLog
    ∧ (sigGet st i).2.batchDepth = st.batchDepth
    ∧ (sigGet st i).2.batchQueue = st.batchQueue
    ∧ (sigGet st i).2.active = st.active
    ∧ (∀ j, ((sigGet st i).2.sigs j).value = (st.sigs j).value)
    ∧ (∀ j, ((sigGet st i).2.effs j).disposed = (st.effs j).disposed)
    ∧ (∀ j, ((sigGet st i).2.effs j).body = (st.effs j).body)
    ∧ (∀ j, ((sigGet st i).2.comps j).evals = (st.comps j).evals)
    ∧ (∀ j, ((sigGet st i).2.comps j).dirty = (st.comps j).dirty)
    ∧ (∀ j, ((sigGet st i).2.comps j).value = (st.comps j).value)
    ∧ (∀ j, ((sigGet st i).2.comps j).body = (st.comps j).body)
    ∧ (∀ j, ((sigGet st i).2.comps j).subs = (st.comps j).subs) := by
  rcases ha : st.active with _ | sub
  · simp [sigGet, ha]
  · rcases sub with e | c <;>
    · simp only [sigGet, ha, addDepOf]
      refine ⟨rfl, rfl, rfl, ha, ?_, ?_, ?_, ?_, ?_, ?_, ?_, ?_⟩ <;>
        (intro j
         simp only [updSig_sigs, updEff_effs, updComp_comps, updSig, updEff, updComp]
         all_goals split <;> simp_all)

/-- The value returned by `Signal.Get` is the stored value. -/
theorem sigGet_fst (st : RState) (i : Nat) :
    (sigGet st i).1 = (st.sigs i).value := by
  rcases ha : st.active with _ | sub
  · simp [sigGet, ha]
  · rcases sub with e | c <;>
    · simp only [sigGet, ha, addDepOf]
      simp only [updSig_sigs, updEff_effs, updComp_comps, updSig, updEff, updComp]
      split <;> simp_all

/-- What every step of a notification cascade preserves: the batch
depth, the active subscriber, every signal's value, every effect's
disposed flag and body, every computed's eval count, cached value and
body; dirtiness is monotone. -/
def PresCore (st st' : RState) : Prop :=
  st'.batchDepth = st.batchDepth
  ∧ st'.active = st.active
  ∧ (∀ j, (st'.sigs j).value = (st.sigs j).value)
  ∧ (∀ j, (st'.effs j).disposed = (st.effs j).disposed)
  ∧ (∀ j, (st'.effs j).body = (st.effs j).body)
  ∧ (∀ j, (st'.comps j).evals = (st.comps j).evals)
  ∧ (∀ j, (st'.comps j).value = (st.comps j).value)
  ∧ (∀ j, (st'.comps j).body = (st.comps j).body)
  ∧ (∀ c, (st.comps c).dirty = true → (st'.comps c).dirty = true)

theorem presCore_rfl (st : RState) : PresCore st st := by
  refine ⟨rfl, rfl, ?_, ?_, ?_, ?_, ?_, ?_, ?_⟩ <;> intro j <;> simp

theorem presCore_trans {a b c : RState} (h1 : PresCore a b) (h2 : PresCore b c) :
    PresCore a c := by
  obtain ⟨d1, a1, v1, p1, b1, e1, cv1, cb1, m1⟩ := h1
  obtain ⟨d2, a2, v2, p2, b2, e2, cv2, cb2, m2⟩ := h2
  exact ⟨d2.trans d1, a2.trans a1, fun j => (v2 j).trans (v1 j),
    fun j => (p2 j).trans (p1 j), fun j => (b2 j).trans (b1 j),
    fun j => (e2 j).trans (e1 j), fun j => (cv2 j).trans (cv1 j),
    fun j => (cb2 j).trans (cb1 j), fun c hc => m2 c (m1 c hc)⟩

theorem sigGet_presCore (st : RState) (i : Nat) : PresCore st (sigGet st i).2 := by
  obtain ⟨_, h2, _, h4, h5, h6, h7, h8, h9, h10, h11, _⟩ := sigGet_frame st i
  exact ⟨h2, h4, h5, h6, h7, h8, h10, h11, fun c hc => (h9 c).trans hc⟩

theorem sigGet_quiet (st : RState) (i : Nat) :
    (sigGet st i).2.runLog = st.runLog ∧ (sigGet st i).2.batchQueue = st.batchQueue
    ∧ (∀ j, ((sigGet st i).2.comps j).dirty = (st.comps j).dirty)
    ∧ (∀ j, ((sigGet st i).2.comps j).subs = (st.comps j).subs) := by
  obtain ⟨h1, _, h3, _, _, _, _, _, h9, _, _, h12⟩ := sigGet_frame st i
  exact ⟨h1, h3, h9, h12⟩

theorem interpBody_presCore (b : Body) : ∀ st : RState, PresCore st (interpBody b st).2 := by
  induction b with
  | ret v => intro st; exact presCore_rfl st
  | read i k ih =>
      intro st
      simp only [interpBody]
      exact presCore_trans (sigGet_presCore st i) (ih _ _)

theorem interpBody_quiet (b : Body) : ∀ st : RState,
    (interpBody b st).2.runLog = st.runLog
    ∧ (interpBody b st).2.batchQueue = st.batchQueue
    ∧ (∀ j, ((interpBody b st).2.comps j).dirty = (st.comps j).dirty)
    ∧ (∀ j, ((interpBody b st).2.comps j).subs = (st.comps j).subs) := by
  induction b with
  | ret v => intro st; exact ⟨rfl, rfl, fun _ => rfl, fun _ => rfl⟩
  | read i k ih =>
      intro st
      simp only [interpBody]
      obtain ⟨g1, g2, g3, g4⟩ := sigGet_quiet st i
      obtain ⟨h1, h2, h3, h4⟩ := ih (sigGet st i).1 (sigGet st i).2
      exact ⟨h1.trans g1, h2.trans g2, fun j => (h3 j).trans (g3 j),
        fun j => (h4 j).trans (g4 j)⟩

/-- The value computed by running a body is its pure denotation at the
current signal values. -/
theorem interpBody_fst (b : Body) : ∀ st : RState,
    (interpBody b st).1 = bodyVal b (fun j => (st.sigs j).value) := by
  induction b with
  | ret v => intro st; rfl
  | read i k ih =>
      intro st
      simp only [interpBody, bodyVal]
      rw [ih (sigGet st i).1 (sigGet st i).2, sigGet_fst]
      congr 1
      funext j
      exact (sigGet_presCore st i).2.2.1 j

/-- `unsubscribeDep` touches only subscriber sets. -/
theorem unsubscribeDep_frame (st : RState) (d : Dep) (s : Sub) :
    (unsubscribeDep st d s).runLog = st.runLog
    ∧ (unsubscribeDep st d s).batchDepth = st.batchDepth
    ∧ (unsubscribeDep st d s).batchQueue = st.batchQueue
    ∧ (unsubscribeDep st d s).active = st.active
    ∧ (∀ j, ((unsubscribeDep st d s).sigs j).value = (st.sigs j).value)
    ∧ (∀ j, (unsubscribeDep st d s).effs j = st.effs j)
    ∧ (∀ j, ((unsubscribeDep st d s).comps j).evals = (st.comps j).evals)
    ∧ (∀ j, ((unsubscribeDep st d s).comps j).dirty = (st.comps j).dirty)
    ∧ (∀ j, ((unsubscribeDep st d s).comps j).value = (st.comps j).value)
    ∧ (∀ j, ((unsubscribeDep st d s).comps j).body = (st.comps j).body)
    ∧ (∀ j, ((unsubscribeDep st d s).comps j).deps = (st.comps j).deps) := by
  rcases d with i | c <;>
  · refine ⟨rfl, rfl, rfl, rfl, ?_, ?_, ?_, ?_, ?_, ?_, ?_⟩ <;>
      (intro j
       simp only [unsubscribeDep, updSig_sigs, updComp_comps]
       first
       | rfl
       | (split <;> simp_all))

/-- A subscriber absent from a dependency's subscriber set stays
absent after any `unsubscribe`. -/
theorem unsubscribeDep_sub_mono (st : RState) (d : Dep) (s s' : Sub) :
    (∀ i, s' ∉ (st.sigs i).subs → s' ∉ ((unsubscribeDep st d s).sigs i).subs)
    ∧ (∀ c, s' ∉ (st.comps c).subs → s' ∉ ((unsubscribeDep st d s).comps c).subs) := by
  rcases d with i0 | c0 <;>
  · constructor <;>
      (intro j hj
       simp only [unsubscribeDep, updSig_sigs, updComp_comps]
       first
       | exact hj
       | (split
          · rename_i hji
            subst hji
            simp only []
            intro hmem
            exact absurd (List.mem_of_mem_filter hmem) hj
          · exact hj))

theorem insertIfAbsent_mem [DecidableEq α] (x y : α) (l : List α) :
    y ∈ insertIfAbsent x l ↔ y ∈ l ∨ y = x := by
  unfold insertIfAbsent
  split <;> rename_i h
  · constructor
    · exact fun hy => Or.inl hy
    · rintro (hy | rfl) <;> [exact hy; exact h]
  · simp

theorem insertIfAbsent_nodup [DecidableEq α] (x : α) (l : List α) (h : l.Nodup) :
    (insertIfAbsent x l).Nodup := by
  unfold insertIfAbsent
  split <;> rename_i hm
  · exact h
  · simpa [List.nodup_append] using ⟨h, hm⟩

/-- Empty computed subscriber sets survive a single unsubscribe. -/
theorem unsubscribeDep_compsubs_nil (st : RState) (d : Dep) (s : Sub) (c : Nat)
    (h : (st.comps c).subs = []) : ((unsubscribeDep st d s).comps c).subs = [] := by
  rcases d with i0 | c0
  · exact h
  · simp only [unsubscribeDep, updComp_comps]
    split <;> simp_all

/-- The `dep.unsubscribe(sub)` loop of `Effect.Run` / `Effect.Dispose`
/ `Computed.Get`: frame facts, removal of the subscriber from every
processed dependency, and monotonicity of absence. -/
theorem unsubFold (s : Sub) : ∀ (L : List Dep) (st : RState),
    (List.foldl (fun acc d => unsubscribeDep acc d s) st L).runLog = st.runLog
    ∧ (List.foldl (fun acc d => unsubscribeDep acc d s) st L).batchDepth = st.batchDepth
    ∧ (List.foldl (fun acc d => unsubscribeDep acc d s) st L).batchQueue = st.batchQueue
    ∧ (List.foldl (fun acc d => unsubscribeDep acc d s) st L).active = st.active
    ∧ (∀ j, ((List.foldl (fun acc d => unsubscribeDep acc d s) st L).sigs j).value
        = (st.sigs j).value)
    ∧ (∀ j, (List.foldl (fun acc d => unsubscribeDep acc d s) st L).effs j = st.effs j)
    ∧ (∀ j, ((List.foldl (fun acc d => unsubscribeDep acc d s) st L).comps j).evals
        = (st.comps j).evals)
    ∧ (∀ j, ((List.foldl (fun acc d => unsubscribeDep acc d s) st L).comps j).dirty
        = (st.comps j).dirty)
    ∧ (∀ j, ((List.foldl (fun acc d => unsubscribeDep acc d s) st L).comps j).value
        = (st.comps j).value)
    ∧ (∀ j, ((List.foldl (fun acc d => unsubscribeDep acc d s) st L).comps j).body
        = (st.comps j).body)
    ∧ (∀ j, ((List.foldl (fun acc d => unsubscribeDep acc d s) st L).comps j).deps
        = (st.comps j).deps)
    ∧ (∀ i, s ∉ (st.sigs i).subs
        → s ∉ ((List.foldl (fun acc d => unsubscribeDep acc d s) st L).sigs i).subs)
    ∧ (∀ c, s ∉ (st.comps c).subs
        → s ∉ ((List.foldl (fun acc d => unsubscribeDep acc d s) st L).comps c).subs)
    ∧ (∀ i, Dep.sig i ∈ L
        → s ∉ ((List.foldl (fun acc d => unsubscribeDep acc d s) st L).sigs i).subs)
    ∧ (∀ c, Dep.comp c ∈ L
        → s ∉ ((List.foldl (fun acc d => unsubscribeDep acc d s) st L).comps c).subs)
    ∧ (∀ c, (st.comps c).subs = []
        → ((List.foldl (fun acc d => unsubscribeDep acc d s) st L).comps c).subs = []) := by
  intro L
  induction L with
  | nil =>
      intro st
      refine ⟨rfl, rfl, rfl, rfl, fun _ => rfl, fun _ => rfl, fun _ => rfl, fun _ => rfl,
        fun _ => rfl, fun _ => rfl, fun _ => rfl, fun _ h => h, fun _ h => h, ?_, ?_,
        fun _ h => h⟩ <;> (intro _ h; exact absurd h (List.not_mem_nil _))
  | cons d L ih =>
      intro st
      simp only [List.foldl_cons]
      obtain ⟨u1, u2, u3, u4, u5, u6, u7, u8, u9, u10, u11⟩ := unsubscribeDep_frame st d s
      obtain ⟨m1, m2⟩ := unsubscribeDep_sub_mono st d s s
      obtain ⟨h1, h2, h3, h4, h5, h6, h7, h8, h9, h10, h11, h12, h13, h14, h15, h16⟩ :=
        ih (unsubscribeDep st d s)
      refine ⟨h1.trans u1, h2.trans u2, h3.trans u3, h4.trans u4,
        fun j => (h5 j).trans (u5 j), fun j => (h6 j).trans (u6 j),
        fun j => (h7 j).trans (u7 j), fun j => (h8 j).trans (u8 j),
        fun j => (h9 j).trans (u9 j), fun j => (h10 j).trans (u10 j),
        fun j => (h11 j).trans (u11 j),
        fun i hi => h12 i (m1 i hi), fun c hc => h13 c (m2 c hc), ?_, ?_,
        fun c hc => h16 c (unsubscribeDep_compsubs_nil st d s c hc)⟩
      · intro i hi
        rcases List.mem_cons.mp hi with rfl | hi
        · refine h12 i ?_
          simp [unsubscribeDep, updSig_sigs]
        · exact h14 i hi
      · intro c hc
        rcases List.mem_cons.mp hc with rfl | hc
        · refine h13 c ?_
          simp [unsubscribeDep, updComp_comps]
        · exact h15 c hc

/-- Frame facts for `Effect.Run`: the batch state is untouched, no
signal value, disposed flag, body, eval counter, cached value or
dirtiness changes, empty computed subscriber sets stay empty, and the
ghost log grows by exactly the run effect (or not at all when it is
disposed). -/
theorem effRun_frame (st : RState) (e : Nat) :
    (effRun st e).batchDepth = st.batchDepth
    ∧ (effRun st e).batchQueue = st.batchQueue
    ∧ (effRun st e).active = st.active
    ∧ (∀ j, ((effRun st e).sigs j).value = (st.sigs j).value)
    ∧ (∀ j, ((effRun st e).effs j).disposed = (st.effs j).disposed)
    ∧ (∀ j, ((effRun st e).effs j).body = (st.effs j).body)
    ∧ (∀ j, ((effRun st e).comps j).evals = (st.comps j).evals)
    ∧ (∀ j, ((effRun st e).comps j).dirty = (st.comps j).dirty)
    ∧ (∀ j, ((effRun st e).comps j).value = (st.comps j).value)
    ∧ (∀ j, ((effRun st e).comps j).body = (st.comps j).body)
    ∧ (∀ c, (st.comps c).subs = [] → ((effRun st e).comps c).subs = [])
    ∧ (effRun st e).runLog
        = (if (st.effs e).disposed then st.runLog else st.runLog ++ [e]) := by
  by_cases hd : (st.effs e).disposed
  · rw [effRun, if_pos hd, if_pos hd]
    exact ⟨rfl, rfl, rfl, fun _ => rfl, fun _ => rfl, fun _ => rfl, fun _ => rfl,
      fun _ => rfl, fun _ => rfl, fun _ => rfl, fun _ h => h, rfl⟩
  · rw [effRun, if_neg hd, if_neg hd]
    set st1 := updEff st e fun es => { es with deps := [] } with hst1
    set st2 := List.foldl (fun acc d => unsubscribeDep acc d (.eff e)) st1
      (st.effs e).deps with hst2
    set st3 : RState := { st2 with active := some (.eff e), runLog := st2.runLog ++ [e] }
      with hst3
    obtain ⟨f1, f2, f3, f4, f5, f6, f7, f8, f9, f10, f11, _, f13, _, _, f16⟩ :=
      unsubFold (.eff e) (st.effs e).deps st1
    have pc := interpBody_presCore (st3.effs e).body st3
    obtain ⟨q1, q2, q3, q4⟩ := interpBody_quiet (st3.effs e).body st3
    obtain ⟨d1, _, v1, p1, b1, e1, cv1, cb1, _⟩ := pc
    have hu1 : ∀ j, ((updEff st e fun es => { es with deps := [] }).sigs j).value
        = (st.sigs j).value := fun j => rfl
    have hu4 : ∀ j, ((updEff st e fun es => { es with deps := [] }).effs j).disposed
        = (st.effs j).disposed := by
      intro j
      rw [updEff_effs]
      split <;> simp_all
    have hu5 : ∀ j, ((updEff st e fun es => { es with deps := [] }).effs j).body
        = (st.effs j).body := by
      intro j
      rw [updEff_effs]
      split <;> simp_all
    refine ⟨?_, ?_, ?_, ?_, ?_, ?_, ?_, ?_, ?_, ?_, ?_, ?_⟩
    · exact d1.trans (f2.trans rfl)
    · exact q2.trans (f3.trans rfl)
    · exact f4.trans rfl
    · exact fun j => ((v1 j).trans (f5 j)).trans (hu1 j)
    · exact fun j => ((p1 j).trans (congrArg EffSt.disposed (f6 j))).trans (hu4 j)
    · exact fun j => ((b1 j).trans (congrArg EffSt.body (f6 j))).trans (hu5 j)
    · exact fun j => (e1 j).trans (f7 j)
    · exact fun j => (q3 j).trans (f8 j)
    · exact fun j => (cv1 j).trans (f9 j)
    · exact fun j => (cb1 j).trans (f10 j)
    · exact fun c hc => (q4 c).trans (f16 c hc)
    · exact q1.trans (congrArg (· ++ [e]) (f1.trans rfl))

theorem effRun_presCore (st : RState) (e : Nat) : PresCore st (effRun st e) := by
  obtain ⟨h1, _, h3, h4, h5, h6, h7, h8, h9, h10, _, _⟩ := effRun_frame st e
  exact ⟨h1, h3, h4, h5, h6, h7, h9, h10, fun c hc => (h8 c).trans hc⟩

/-- What one `onDependencyUpdated` / notification step guarantees:
the core is preserved, nothing runs while a batch is active, the queue
stays duplicate-free, and empty computed subscriber sets stay empty. -/
def NotifyOk (st st' : RState) : Prop :=
  PresCore st st'
  ∧ (0 < st.batchDepth → st'.runLog = st.runLog)
  ∧ (st.batchQueue.Nodup → st'.batchQueue.Nodup)
  ∧ (∀ c, (st.comps c).subs = [] → (st'.comps c).subs = [])

theorem notifyOk_rfl (st : RState) : NotifyOk st st :=
  ⟨presCore_rfl st, fun _ => rfl, fun h => h, fun _ h => h⟩

theorem notifyOk_trans {a b c : RState} (h1 : NotifyOk a b) (h2 : NotifyOk b c) :
    NotifyOk a c := by
  obtain ⟨p1, r1, n1, s1⟩ := h1
  obtain ⟨p2, r2, n2, s2⟩ := h2
  refine ⟨presCore_trans p1 p2, ?_, fun h => n2 (n1 h), fun j h => s2 j (s1 j h)⟩
  intro hd
  have hd2 : 0 < b.batchDepth := by rw [p1.1]; exact hd
  exact (r2 hd2).trans (r1 hd)

theorem effOnDep_ok (st : RState) (e : Nat) : NotifyOk st (effOnDep st e) := by
  by_cases hd : 0 < st.batchDepth
  · rw [effOnDep, if_pos hd]
    exact ⟨⟨rfl, rfl, fun _ => rfl, fun _ => rfl, fun _ => rfl, fun _ => rfl,
      fun _ => rfl, fun _ => rfl, fun _ h => h⟩, fun _ => rfl,
      fun h => insertIfAbsent_nodup e _ h, fun _ h => h⟩
  · rw [effOnDep, if_neg hd]
    obtain ⟨_, h2, _, _, _, _, _, _, _, _, h11, _⟩ := effRun_frame st e
    exact ⟨effRun_presCore st e, fun h => absurd h hd, fun h => h2 ▸ h, h11⟩

theorem notifySubs_nil (F : Nat) (st : RState) : notifySubs F [] st = st := rfl

theorem notifySubs_cons (F : Nat) (s : Sub) (rest : List Sub) (st : RState) :
    notifySubs F (s :: rest) st
      = notifySubs F rest
          (match s with
           | .eff e => effOnDep st e
           | .comp c => compOnDep F c st) := rfl

theorem compOnDep_zero (c : Nat) (st : RState) : compOnDep 0 c st = st := rfl

/-- `NotifyOk` for the whole computed-notification cascade, by
induction on the fuel. -/
theorem notify_ok : ∀ F : Nat,
    (∀ c st, NotifyOk st (compOnDep F c st)) ∧ (∀ l st, NotifyOk st (notifySubs F l st)) := by
  have aux : ∀ F : Nat, (∀ c st, NotifyOk st (compOnDep F c st)) →
      ∀ l st, NotifyOk st (notifySubs F l st) := by
    intro F hF l
    induction l with
    | nil => intro st; exact notifyOk_rfl st
    | cons s rest ih =>
        intro st
        rw [notifySubs_cons]
        rcases s with e | c
        · exact notifyOk_trans (effOnDep_ok st e) (ih _)
        · exact notifyOk_trans (hF c st) (ih _)
  intro F
  induction F with
  | zero =>
      have hc : ∀ c st, NotifyOk st (compOnDep 0 c st) := fun c st => notifyOk_rfl st
      exact ⟨hc, aux 0 hc⟩
  | succ F ih =>
      have hc : ∀ c st, NotifyOk st (compOnDep (F + 1) c st) := by
        intro c st
        rw [compOnDep_succ]
        split
        · exact notifyOk_rfl st
        · rename_i hdirty
          refine notifyOk_trans (b := updComp st c fun cs => { cs with dirty := true }) ?_
            (aux F ih.1 _ _)
          refine ⟨⟨rfl, rfl, fun _ => rfl, fun _ => rfl, fun _ => rfl, ?_, ?_, ?_, ?_⟩,
            fun _ => rfl, fun h => h, ?_⟩ <;>
            (intro j
             first
             | (intro hj
                rw [updComp_comps] at *
                revert hj
                split <;> simp_all)
             | (rw [updComp_comps]
                split <;> simp_all))
      exact ⟨hc, aux (F + 1) hc⟩

theorem compOnDep_ok (F c : Nat) (st : RState) : NotifyOk st (compOnDep F c st) :=
  (notify_ok F).1 c st

theorem notifySubs_ok (F : Nat) (l : List Sub) (st : RState) :
    NotifyOk st (notifySubs F l st) :=
  (notify_ok F).2 l st

/-- The tracking half of `Computed.Get` only touches link sets. -/
theorem compGetTrack_frame (st : RState) (c : Nat) :
    (compGetTrack st c).runLog = st.runLog
    ∧ (compGetTrack st c).batchQueue = st.batchQueue
    ∧ (compGetTrack st c).batchDepth = st.batchDepth
    ∧ (compGetTrack st c).active = st.active
    ∧ (∀ j, ((compGetTrack st c).sigs j).value = (st.sigs j).value)
    ∧ (∀ j, ((compGetTrack st c).effs j).disposed = (st.effs j).disposed)
    ∧ (∀ j, ((compGetTrack st c).comps j).dirty = (st.comps j).dirty)
    ∧ (∀ j, ((compGetTrack st c).comps j).evals = (st.comps j).evals)
    ∧ (∀ j, ((compGetTrack st c).comps j).value = (st.comps j).value)
    ∧ (∀ j, ((compGetTrack st c).comps j).body = (st.comps j).body) := by
  unfold compGetTrack
  rcases ha : st.active with _ | sub
  · simp [ha]
  · rcases sub with e | c2 <;>
    · refine ⟨rfl, rfl, rfl, ha, ?_, ?_, ?_, ?_, ?_, ?_⟩
      all_goals intro j
      all_goals simp only [addDepOf, updComp_comps, updEff_effs, updSig_sigs,
        updComp, updEff, updSig]
      all_goals split_ifs <;> simp_all

/-- The evaluation half of `Computed.Get` never touches the ghost run
log, the batch state, any disposed flag, or any signal value; it
restores the active subscriber. -/
theorem compGetEval_quiet (st1 : RState) (c : Nat) :
    (compGetEval st1 c).2.runLog = st1.runLog
    ∧ (compGetEval st1 c).2.batchQueue = st1.batchQueue
    ∧ (compGetEval st1 c).2.batchDepth = st1.batchDepth
    ∧ (compGetEval st1 c).2.active = st1.active
    ∧ (∀ j, ((compGetEval st1 c).2.sigs j).value = (st1.sigs j).value)
    ∧ (∀ j, ((compGetEval st1 c).2.effs j).disposed = (st1.effs j).disposed) := by
  unfold compGetEval
  split
  · set st2 := List.foldl (fun acc d => unsubscribeDep acc d (.comp c)) st1
      (st1.comps c).deps with hst2
    set st3 := updComp st2 c fun cs => { cs with deps := [] } with hst3
    set st4 := updComp { st3 with active := some (.comp c) } c
      fun cs => { cs with evals := cs.evals + 1 } with hst4
    obtain ⟨f1, f2, f3, f4, f5, f6, _, _, _, _, _, _, _, _, _, _⟩ :=
      unsubFold (.comp c) (st1.comps c).deps st1
    obtain ⟨q1, q2, _, _⟩ := interpBody_quiet (st4.comps c).body st4
    obtain ⟨d1, _, v1, p1, _, _, _, _, _⟩ := interpBody_presCore (st4.comps c).body st4
    refine ⟨?_, ?_, ?_, ?_, ?_, ?_⟩
    · exact q1.trans f1
    · exact q2.trans f3
    · exact d1.trans f2
    · exact f4.trans rfl
    · exact fun j => (v1 j).trans (f5 j)
    · exact fun j => (p1 j).trans (congrArg EffSt.disposed (f6 j))
  · exact ⟨rfl, rfl, rfl, rfl, fun _ => rfl, fun _ => rfl⟩

/-- `Computed.Get` never touches the ghost run log, the batch state,
any disposed flag, or any signal value. -/
theorem compGet_quiet (st : RState) (c : Nat) :
    (compGet st c).2.runLog = st.runLog
    ∧ (compGet st c).2.batchQueue = st.batchQueue
    ∧ (compGet st c).2.batchDepth = st.batchDepth
    ∧ (compGet st c).2.active = st.active
    ∧ (∀ j, ((compGet st c).2.sigs j).value = (st.sigs j).value)
    ∧ (∀ j, ((compGet st c).2.effs j).disposed = (st.effs j).disposed) := by
  obtain ⟨t1, t2, t3, t4, t5, t6, _, _, _, _⟩ := compGetTrack_frame st c
  obtain ⟨e1, e2, e3, e4, e5, e6⟩ := compGetEval_quiet (compGetTrack st c) c
  exact ⟨e1.trans t1, e2.trans t2, e3.trans t3, e4.trans t4,
    fun j => (e5 j).trans (t5 j), fun j => (e6 j).trans (t6 j)⟩

/-- Frame facts for `Effect.Dispose`: only the disposed effect's entry
and subscriber sets change; the flag ends up set. -/
theorem effDispose_frame (st : RState) (e : Nat) :
    (effDispose st e).runLog = st.runLog
    ∧ (effDispose st e).batchDepth = st.batchDepth
    ∧ (effDispose st e).batchQueue = st.batchQueue
    ∧ (∀ j, ((effDispose st e).sigs j).value = (st.sigs j).value)
    ∧ (∀ j, j ≠ e → (effDispose st e).effs j = st.effs j)
    ∧ (((st.effs e).disposed = true → effDispose st e = st))
    ∧ (∀ j, ((effDispose st e).comps j).evals = (st.comps j).evals)
    ∧ (∀ j, ((effDispose st e).comps j).dirty = (st.comps j).dirty)
    ∧ (∀ j, ((effDispose st e).comps j).value = (st.comps j).value) := by
  by_cases hd : (st.effs e).disposed
  · rw [effDispose, if_pos hd]
    exact ⟨rfl, rfl, rfl, fun _ => rfl, fun _ _ => rfl, fun _ => rfl, fun _ => rfl,
      fun _ => rfl, fun _ => rfl⟩
  · rw [effDispose, if_neg hd]
    set st1 := updEff st e fun es => { es with disposed := true } with hst1
    obtain ⟨f1, f2, f3, _, f5, f6, f7, f8, f9, _, _, _, _, _, _, _⟩ :=
      unsubFold (.eff e) ((st1.effs e).deps) st1
    refine ⟨f1, f2, f3, f5, ?_, fun hds => absurd hds hd, fun j => f7 j, fun j => f8 j,
      fun j => f9 j⟩
    intro j hj
    show (updEff (List.foldl (fun acc d => unsubscribeDep acc d (Sub.eff e)) st1
        (st1.effs e).deps) e fun es => { es with deps := [] }).effs j = st.effs j
    rw [updEff_effs, if_neg hj]
    rw [f6 j, hst1, updEff_effs, if_neg hj]

/-- `Effect.Dispose` always leaves its target's disposed flag set. -/
theorem effDispose_sets (st : RState) (e : Nat) :
    ((effDispose st e).effs e).disposed = true := by
  by_cases hd : (st.effs e).disposed
  · rw [effDispose, if_pos hd]; exact hd
  · rw [effDispose, if_neg hd]
    set st1 := updEff st e fun es => { es with disposed := true } with hst1
    obtain ⟨_, _, _, _, _, f6, _, _, _, _, _, _, _, _, _, _⟩ :=
      unsubFold (.eff e) ((st1.effs e).deps) st1
    rw [updEff_effs, if_pos rfl]
    show ((List.foldl (fun acc d => unsubscribeDep acc d (Sub.eff e)) st1
        (st1.effs e).deps).effs e).disposed = true
    rw [f6 e, hst1, updEff_effs, if_pos rfl]

/-- Disposal is irrevocable: once the flag is set nothing clears it. -/
theorem effDispose_mono (st : RState) (e j : Nat) (h : (st.effs j).disposed = true) :
    ((effDispose st e).effs j).disposed = true := by
  by_cases hj : j = e
  · subst hj; exact effDispose_sets st j
  · by_cases hd : (st.effs e).disposed
    · rw [effDispose, if_pos hd]; exact h
    · rw [(effDispose_frame st e).2.2.2.2.1 j hj]; exact h

/-- `Signal.Set`: the batch depth is untouched, nothing runs while a
batch is active, the queue stays duplicate-free, disposed flags, eval
counters and bodies are untouched, empty computed subscriber sets stay
empty, and dirtiness is monotone. -/
theorem sigSet_ok (F i : Nat) (v : Int) (st : RState) :
    (sigSet F i v st).batchDepth = st.batchDepth
    ∧ (0 < st.batchDepth → (sigSet F i v st).runLog = st.runLog)
    ∧ (st.batchQueue.Nodup → (sigSet F i v st).batchQueue.Nodup)
    ∧ (∀ j, ((sigSet F i v st).effs j).disposed = (st.effs j).disposed)
    ∧ (∀ j, ((sigSet F i v st).comps j).evals = (st.comps j).evals)
    ∧ (∀ j, ((sigSet F i v st).effs j).body = (st.effs j).body)
    ∧ (∀ c, (st.comps c).subs = [] → ((sigSet F i v st).comps c).subs = [])
    ∧ (sigSet F i v st).active = st.active
    ∧ (∀ c, (st.comps c).dirty = true → ((sigSet F i v st).comps c).dirty = true) := by
  rw [sigSet]
  split
  · exact ⟨rfl, fun _ => rfl, fun h => h, fun _ => rfl, fun _ => rfl, fun _ => rfl,
      fun _ h => h, rfl, fun _ h => h⟩
  · set st1 := updSig st i fun ss => { ss with value := v } with hst1
    obtain ⟨⟨p1, p2, _, p4, p5, p6, _, _, p9⟩, r1, n1, s1⟩ :=
      notifySubs_ok F ((st1.sigs i).subs) st1
    exact ⟨p1, fun h => r1 h, n1, p4, fun j => p6 j, p5, s1, p2, p9⟩

/-! ### Counting effect runs -/

/-- How `Effect.Run` changes the count of `e` in the ghost log. -/
theorem effRun_count (st : RState) (x e : Nat) :
    (effRun st x).runLog.count e
      = st.runLog.count e
        + (if x = e ∧ (st.effs x).disposed = false then 1 else 0) := by
  have h := (effRun_frame st x).2.2.2.2.2.2.2.2.2.2.2
  by_cases hd : (st.effs x).disposed
  · rw [h, if_pos hd]
    simp [hd]
  · rw [h, if_neg hd]
    rcases eq_or_ne x e with rfl | hne
    · simp [List.count_append, eq_false_of_ne_true hd]
    · simp [List.count_append, hne, List.count_eq_zero, Ne.symm hne,
        eq_false_of_ne_true hd]

/-- Facts about the flush loop at batch depth zero: the depth and
queue are untouched, disposal flags are untouched, and the count of a
given effect's runs grows by its multiplicity in the drained list when
it is not disposed, by nothing when it is, and never by more. -/
theorem flushFold_facts (e : Nat) : ∀ (d : List Nat) (st : RState), st.batchDepth = 0 →
    (List.foldl (fun acc x => effOnDep acc x) st d).batchDepth = 0
    ∧ (List.foldl (fun acc x => effOnDep acc x) st d).batchQueue = st.batchQueue
    ∧ (∀ j, ((List.foldl (fun acc x => effOnDep acc x) st d).effs j).disposed
        = (st.effs j).disposed)
    ∧ ((st.effs e).disposed = false →
        (List.foldl (fun acc x => effOnDep acc x) st d).runLog.count e
          = st.runLog.count e + d.count e)
    ∧ ((st.effs e).disposed = true →
        (List.foldl (fun acc x => effOnDep acc x) st d).runLog.count e
          = st.runLog.count e)
    ∧ (List.foldl (fun acc x => effOnDep acc x) st d).runLog.count e
        ≤ st.runLog.count e + d.count e := by
  intro d
  induction d with
  | nil =>
      intro st h
      exact ⟨h, rfl, fun _ => rfl, fun _ => by simp, fun _ => rfl, by simp⟩
  | cons x rest ih =>
      intro st h
      simp only [List.foldl_cons]
      have hstep : effOnDep st x = effRun st x := by
        rw [effOnDep, if_neg (by omega)]
      obtain ⟨g1, g2, g3, g4, g5, _, _, _, _, _, _, g12⟩ := effRun_frame st x
      have hd0 : (effRun st x).batchDepth = 0 := g1.trans h
      obtain ⟨h1, h2, h3, h4, h5, h6⟩ := ih (effOnDep st x) (hstep ▸ hd0)
      rw [hstep] at h1 h2 h3 h4 h5 h6 ⊢
      have hcnt := effRun_count st x e
      refine ⟨h1, h2.trans g2, fun j => (h3 j).trans (g5 j), ?_, ?_, ?_⟩
      · intro hnd
        rw [h4 ((g5 e).trans hnd), hcnt]
        rcases eq_or_ne x e with rfl | hne
        · simp [hnd, List.count_cons]
          omega
        · simp [hne, List.count_cons, Ne.symm hne]
      · intro hdd
        rw [h5 ((g5 e).trans hdd), hcnt]
        rcases eq_or_ne x e with rfl | hne
        · simp [hdd]
        · simp [hne]
      · refine le_trans h6 ?_
        rw [hcnt]
        rcases eq_or_ne x e with rfl | hne
        · by_cases hdd : (st.effs x).disposed <;>
            (simp [hdd, List.count_cons]; try omega)
        · simp [hne, List.count_cons, Ne.symm hne]

/-- A `Computed.onDependencyUpdated` in a graph where no computed has
subscribers only sets a dirty flag. -/
theorem compOnDep_nosubs (F c : Nat) (st : RState) (hns : ∀ c2, (st.comps c2).subs = []) :
    (compOnDep F c st).runLog = st.runLog
    ∧ (compOnDep F c st).batchDepth = st.batchDepth
    ∧ (∀ j, ((compOnDep F c st).effs j).disposed = (st.effs j).disposed)
    ∧ (∀ c2, ((compOnDep F c st).comps c2).subs = []) := by
  cases F with
  | zero => exact ⟨rfl, rfl, fun _ => rfl, hns⟩
  | succ F =>
      rw [compOnDep_succ]
      split
      · exact ⟨rfl, rfl, fun _ => rfl, hns⟩
      · have hsubs : (((updComp st c fun cs => { cs with dirty := true }).comps c).subs)
            = [] := by
          rw [updComp_comps, if_pos rfl]
          exact hns c
        rw [hsubs, notifySubs_nil]
        refine ⟨rfl, rfl, fun _ => rfl, ?_⟩
        intro c2
        rw [updComp_comps]
        split
        · rename_i hc2; subst hc2; exact hns c2
        · exact hns c2

/-- Notifying a subscriber snapshot at batch depth zero, in a graph
where no computed has subscribers, runs each non-disposed effect in
the snapshot once per occurrence. -/
theorem notifySubs_count (F e : Nat) : ∀ (l : List Sub) (st : RState),
    st.batchDepth = 0 → (∀ c, (st.comps c).subs = []) → (st.effs e).disposed = false →
    (notifySubs F l st).runLog.count e = st.runLog.count e + l.count (.eff e) := by
  intro l
  induction l with
  | nil => intro st _ _ _; simp [notifySubs_nil]
  | cons s rest ih =>
      intro st hd hns hnd
      rw [notifySubs_cons]
      rcases s with x | c
      · have hstep : effOnDep st x = effRun st x := by
          rw [effOnDep, if_neg (by omega)]
        simp only [hstep]
        obtain ⟨g1, _, _, _, g5, _, _, _, _, _, g11, _⟩ := effRun_frame st x
        rw [ih (effRun st x) (g1.trans hd) (fun c => g11 c (hns c)) ((g5 e).trans hnd)]
        rw [effRun_count st x e]
        rcases eq_or_ne x e with rfl | hne
        · simp [hnd, List.count_cons]
          omega
        · have : (Sub.eff x) ≠ (Sub.eff e) := by simp [hne]
          simp [List.count_cons, this, hne]
      · obtain ⟨c1, c2, c3, c4⟩ := compOnDep_nosubs F c st hns
        rw [ih (compOnDep F c st) (c2.trans hd) c4 ((c3 e).trans hnd), c1]
        simp [List.count_cons]

/-- A disposed effect is never logged by a notification cascade, at
any batch depth, and stays disposed. -/
theorem notify_count_disposed (e : Nat) : ∀ F : Nat,
    (∀ c st, (st.effs e).disposed = true →
      ((compOnDep F c st).effs e).disposed = true
      ∧ (compOnDep F c st).runLog.count e = st.runLog.count e)
    ∧ (∀ l st, (st.effs e).disposed = true →
      ((notifySubs F l st).effs e).disposed = true
      ∧ (notifySubs F l st).runLog.count e = st.runLog.count e) := by
  have heff : ∀ st x, (st.effs e).disposed = true →
      ((effOnDep st x).effs e).disposed = true
      ∧ (effOnDep st x).runLog.count e = st.runLog.count e := by
    intro st x hdd
    by_cases hb : 0 < st.batchDepth
    · rw [effOnDep, if_pos hb]
      exact ⟨hdd, rfl⟩
    · rw [effOnDep, if_neg hb]
      obtain ⟨_, _, _, _, g5, _, _, _, _, _, _, _⟩ := effRun_frame st x
      refine ⟨(g5 e).trans hdd, ?_⟩
      rw [effRun_count st x e]
      rcases eq_or_ne x e with rfl | hne
      · simp [hdd]
      · simp [hne]
  have aux : ∀ F : Nat,
      (∀ c st, (st.effs e).disposed = true →
        ((compOnDep F c st).effs e).disposed = true
        ∧ (compOnDep F c st).runLog.count e = st.runLog.count e) →
      ∀ l st, (st.effs e).disposed = true →
        ((notifySubs F l st).effs e).disposed = true
        ∧ (notifySubs F l st).runLog.count e = st.runLog.count e := by
    intro F hF l
    induction l with
    | nil => intro st h; exact ⟨h, rfl⟩
    | cons s rest ih =>
        intro st h
        rw [notifySubs_cons]
        rcases s with x | c
        · obtain ⟨d1, d2⟩ := heff st x h
          obtain ⟨e1, e2⟩ := ih (effOnDep st x) d1
          exact ⟨e1, e2.trans d2⟩
        · obtain ⟨d1, d2⟩ := hF c st h
          obtain ⟨e1, e2⟩ := ih (compOnDep F c st) d1
          exact ⟨e1, e2.trans d2⟩
  intro F
  induction F with
  | zero =>
      have hc : ∀ c st, (st.effs e).disposed = true →
          ((compOnDep 0 c st).effs e).disposed = true
          ∧ (compOnDep 0 c st).runLog.count e = st.runLog.count e :=
        fun c st h => ⟨h, rfl⟩
      exact ⟨hc, aux 0 hc⟩
  | succ F ih =>
      have hc : ∀ c st, (st.effs e).disposed = true →
          ((compOnDep (F + 1) c st).effs e).disposed = true
          ∧ (compOnDep (F + 1) c st).runLog.count e = st.runLog.count e := by
        intro c st h
        rw [compOnDep_succ]
        split
        · exact ⟨h, rfl⟩
        · exact aux F ih.1 _ _ h
      exact ⟨hc, aux (F + 1) hc⟩

/-- `batchExit` when the flush does not fire. -/
theorem batchExit_skip (ord : List Nat → List Nat) (st : RState)
    (h : ¬(st.batchDepth - 1 = 0 ∧ st.batchQueue ≠ [])) :
    batchExit ord st = { st with batchDepth := st.batchDepth - 1 } := by
  rw [batchExit]
  exact if_neg h

/-- `batchExit` when the flush fires. -/
theorem batchExit_flush (ord : List Nat → List Nat) (st : RState)
    (h1 : st.batchDepth - 1 = 0) (h2 : st.batchQueue ≠ []) :
    batchExit ord st
      = List.foldl (fun acc x => effOnDep acc x)
          { { st with batchDepth := st.batchDepth - 1 } with batchQueue := [] }
          (ord st.batchQueue) := by
  rw [batchExit]
  rw [if_pos ⟨h1, h2⟩]

/-- A disposed effect's run count survives `batchExit` (a flush of a
batch in progress), and it stays disposed. -/
theorem batchExit_disposed (ord : List Nat → List Nat) (st : RState) (e : Nat)
    (h : (st.effs e).disposed = true) :
    ((batchExit ord st).effs e).disposed = true
    ∧ (batchExit ord st).runLog.count e = st.runLog.count e := by
  by_cases hc : st.batchDepth - 1 = 0 ∧ st.batchQueue ≠ []
  · rw [batchExit_flush ord st hc.1 hc.2]
    obtain ⟨_, _, f3, _, f5, _⟩ := flushFold_facts e (ord st.batchQueue)
      { { st with batchDepth := st.batchDepth - 1 } with batchQueue := [] } hc.1
    exact ⟨(f3 e).trans h, f5 h⟩
  · rw [batchExit_skip ord st hc]
    exact ⟨h, rfl⟩

/-- What executing commands inside an open batch preserves. -/
def BatchPres (st st' : RState) : Prop :=
  st'.runLog = st.runLog ∧ st'.batchDepth = st.batchDepth
  ∧ (st.batchQueue.Nodup → st'.batchQueue.Nodup)

theorem batchPres_trans {a b c : RState} (h1 : BatchPres a b) (h2 : BatchPres b c) :
    BatchPres a c :=
  ⟨h2.1.trans h1.1, h2.2.1.trans h1.2.1, fun h => h2.2.2 (h1.2.2 h)⟩

mutual

/-- Inside an open batch, no command runs an effect: the ghost log is
unchanged, the depth is restored, the queue stays duplicate-free. -/
theorem execCmd_pos (F : Nat) (ord : List Nat → List Nat) :
    ∀ (c : Cmd) (st : RState), 0 < st.batchDepth → BatchPres st (execCmd F ord c st)
  | .setSig i v, st, h => by
      obtain ⟨s1, s2, s3, _⟩ := sigSet_ok F i v st
      exact ⟨s2 h, s1, s3⟩
  | .getSig i, st, h => by
      obtain ⟨q1, q2, _, _⟩ := sigGet_quiet st i
      exact ⟨q1, (sigGet_presCore st i).1, fun hn => q2 ▸ hn⟩
  | .getComp c, st, h => by
      obtain ⟨q1, q2, q3, _⟩ := compGet_quiet st c
      exact ⟨q1, q3, fun hn => q2 ▸ hn⟩
  | .dispose e, st, h => by
      obtain ⟨f1, f2, f3, _⟩ := effDispose_frame st e
      exact ⟨f1, f2, fun hn => f3 ▸ hn⟩
  | .batch b, st, h => by
      have hmid := execCmds_pos F ord b (batchEnter st) (by simp [batchEnter])
      obtain ⟨m1, m2, m3⟩ := hmid
      have hdm : (execCmds F ord b (batchEnter st)).batchDepth = st.batchDepth + 1 := m2
      show BatchPres st (batchExit ord (execCmds F ord b (batchEnter st)))
      rw [batchExit_skip ord _ (by rw [hdm]; omega)]
      exact ⟨m1, by simp [hdm], fun hn => m3 hn⟩

theorem execCmds_pos (F : Nat) (ord : List Nat → List Nat) :
    ∀ (cs : Cmds) (st : RState), 0 < st.batchDepth → BatchPres st (execCmds F ord cs st)
  | .nil, st, h => ⟨rfl, rfl, fun hn => hn⟩
  | .cons c cs, st, h => by
      have h1 := execCmd_pos F ord c st h
      have h2 := execCmds_pos F ord cs (execCmd F ord c st) (by rw [h1.2.1]; exact h)
      exact batchPres_trans h1 h2

end

/-! ### Concrete scenario states -/

/-- A quiescent runtime with given signal values and effect bodies:
no links yet, no batch open, nothing logged. -/
def baseState (sv : Nat → Int) (ebody : Nat → Body) : RState :=
  { sigs := fun i => ⟨sv i, []⟩
    comps := fun _ => ⟨.ret 0, 0, true, [], [], 0⟩
    effs := fun e => ⟨ebody e, [], false⟩
    active := none
    batchDepth := 0
    batchQueue := []
    runLog := [] }

/-- Scenario S4: signals `a = 0`, `b = 1` both `1`; one effect reading
both, mounted with `CreateEffect` (its initial run). -/
def s4State : RState :=
  effRun (baseState (fun _ => 1) (fun _ => .read 0 fun _ => .read 1 fun _ => .ret 0)) 0

/-- Two effects, effect 0 reading signal 0 and effect 1 reading signal
1, both mounted. -/
def twoEffState : RState :=
  effRun (effRun (baseState (fun _ => 1)
    (fun e => if e = 0 then .read 0 (fun _ => .ret 0) else .read 1 (fun _ => .ret 0))) 0) 1

/-- C2: inside `batch(fn)` (including nested batches) no effect runs:
the run log is untouched until the outermost exit; the whole batch
runs a given effect at most once; and outside any batch one
value-changing `set` on a cell the effect subscribes to runs it
exactly once. -/
theorem C2_batch_coalesces (F : Nat) (ord : List Nat → List Nat) (b : Cmds)
    (st : RState) (e : Nat)
    (hdepth : st.batchDepth = 0) (hqueue : st.batchQueue = [])
    (hord : ∀ l, (ord l).Perm l) :
    (execCmds F ord b (batchEnter st)).runLog = st.runLog
    ∧ (execCmd F ord (.batch b) st).runLog.count e ≤ st.runLog.count e + 1
    ∧ (∀ (i : Nat) (v : Int), (st.sigs i).subs.count (.eff e) = 1
        → (st.effs e).disposed = false
        → (∀ c, (st.comps c).subs = [])
        → (st.sigs i).value ≠ v
        → (sigSet F i v st).runLog.count e = st.runLog.count e + 1) := by
  have hmid := execCmds_pos F ord b (batchEnter st) (by simp [batchEnter])
  obtain ⟨m1, m2, m3⟩ := hmid
  have hm1 : (execCmds F ord b (batchEnter st)).runLog = st.runLog := m1
  refine ⟨hm1, ?_, ?_⟩
  · show (batchExit ord (execCmds F ord b (batchEnter st))).runLog.count e
      ≤ st.runLog.count e + 1
    set stM := execCmds F ord b (batchEnter st) with hstM
    have hdM : stM.batchDepth = 1 := by
      rw [m2]
      simp [batchEnter, hdepth]
    have hnodup : stM.batchQueue.Nodup := m3 (by
      show st.batchQueue.Nodup
      rw [hqueue]
      exact List.nodup_nil)
    by_cases hq : stM.batchQueue = []
    · rw [batchExit_skip ord stM (by rw [hq]; simp)]
      simp [hm1]
    · rw [batchExit_flush ord stM (by rw [hdM]) hq]
      obtain ⟨_, _, _, _, _, f6⟩ := flushFold_facts e (ord stM.batchQueue)
        { { stM with batchDepth := stM.batchDepth - 1 } with batchQueue := [] }
        (by simp [hdM])
      refine le_trans f6 ?_
      have hcnt : (ord stM.batchQueue).count e = stM.batchQueue.count e :=
        (hord stM.batchQueue).count_eq e
      have hle : stM.batchQueue.count e ≤ 1 := List.nodup_iff_count_le_one.mp hnodup e
      have : ({ { stM with batchDepth := stM.batchDepth - 1 }
          with batchQueue := [] } : RState).runLog.count e = st.runLog.count e := by
        show stM.runLog.count e = st.runLog.count e
        rw [hm1]
      omega
  · intro i v hsub hnd hns hne
    rw [sigSet]
    split
    · rename_i hbeq
      exact absurd (by exact beq_iff_eq.mp hbeq) hne
    · set st1 := updSig st i fun ss => { ss with value := v } with hst1
      have hd1 : st1.batchDepth = 0 := hdepth
      have hns1 : ∀ c, (st1.comps c).subs = [] := hns
      have hnd1 : (st1.effs e).disposed = false := hnd
      rw [notifySubs_count F e ((st1.sigs i).subs) st1 hd1 hns1 hnd1]
      have hsubs1 : (st1.sigs i).subs = (st.sigs i).subs := by
        rw [hst1, updSig_sigs, if_pos rfl]
      rw [hsubs1]
      show st.runLog.count e + (st.sigs i).subs.count (Sub.eff e)
        = st.runLog.count e + 1
      rw [hsub]

/-- C2 witness: scenario S4 — with effect 0 subscribed to signals 0
and 1, a batch setting both runs it once, and a single outside write
runs it exactly once. -/
theorem C2_batch_coalesces_witness :
    (execCmds 1 id (.cons (.setSig 0 2) (.cons (.setSig 1 2) .nil))
        (batchEnter s4State)).runLog = s4State.runLog
    ∧ (execCmd 1 id (.batch (.cons (.setSig 0 2) (.cons (.setSig 1 2) .nil)))
        s4State).runLog.count 0 ≤ s4State.runLog.count 0 + 1
    ∧ (∀ (i : Nat) (v : Int), (s4State.sigs i).subs.count (.eff 0) = 1
        → (s4State.effs 0).disposed = false
        → (∀ c, (s4State.comps c).subs = [])
        → (s4State.sigs i).value ≠ v
        → (sigSet 1 i v s4State).runLog.count 0 = s4State.runLog.count 0 + 1) :=
  C2_batch_coalesces 1 id (.cons (.setSig 0 2) (.cons (.setSig 1 2) .nil)) s4State 0
    (by decide) (by decide) (fun l => List.Perm.refl l)

/-- C3, counterexample: two effects are enqueued in order `[0, 1]`
during a batch, the drain order `List.reverse` is a permutation of the
queued set — a legal Go map iteration order — and the flush then runs
effect 1 before effect 0, so the first-enqueued effect is not invoked
first. -/
theorem C3_counterexample :
    (execCmds 1 List.reverse (.cons (.setSig 0 2) (.cons (.setSig 1 2) .nil))
        (batchEnter twoEffState)).batchQueue = [0, 1]
    ∧ (List.reverse [0, 1]).Perm [0, 1]
    ∧ (execCmd 1 List.reverse (.batch (.cons (.setSig 0 2) (.cons (.setSig 1 2) .nil)))
        twoEffState).runLog = [0, 1, 1, 0] :=
  ⟨by decide, by decide, by decide⟩

/-- C3, amended: when the batch depth returns to zero the queue is
drained exactly once — the queue is emptied, and each enqueued
(non-disposed) effect's function runs exactly once — but in an
unspecified map-iteration order, not necessarily insertion order. -/
theorem C3_flush_drains_once (ord : List Nat → List Nat) (st : RState) (e : Nat)
    (hdepth : st.batchDepth = 1) (hq : st.batchQueue.Nodup)
    (hord : (ord st.batchQueue).Perm st.batchQueue)
    (hnd : (st.effs e).disposed = false) :
    (batchExit ord st).batchQueue = []
    ∧ (batchExit ord st).runLog.count e
        = st.runLog.count e + (if e ∈ st.batchQueue then 1 else 0) := by
  by_cases hqe : st.batchQueue = []
  · rw [batchExit_skip ord st (by rw [hqe]; simp)]
    simp [hqe]
  · rw [batchExit_flush ord st (by rw [hdepth]) hqe]
    obtain ⟨_, f2, _, f4, _, _⟩ := flushFold_facts e (ord st.batchQueue)
      { { st with batchDepth := st.batchDepth - 1 } with batchQueue := [] }
      (by rw [hdepth])
    refine ⟨f2, ?_⟩
    rw [f4 hnd]
    have hcnt : (ord st.batchQueue).count e = st.batchQueue.count e := hord.count_eq e
    rw [hcnt]
    show st.runLog.count e + st.batchQueue.count e
      = st.runLog.count e + (if e ∈ st.batchQueue then 1 else 0)
    by_cases hm : e ∈ st.batchQueue
    · rw [if_pos hm, List.count_eq_one_of_mem hq hm]
    · rw [if_neg hm, List.count_eq_zero.mpr hm]

/-- The two-effect runtime with a batch open at depth 1 and both
effects enqueued, 0 first. -/
def queuedState : RState := { twoEffState with batchDepth := 1, batchQueue := [0, 1] }

/-- C3 witness: a batch at depth one with queue `[0, 1]` flushes both
effects exactly once and empties the queue. -/
theorem C3_flush_drains_once_witness :
    (batchExit id queuedState).batchQueue = []
    ∧ (batchExit id queuedState).runLog.count 0
      = queuedState.runLog.count 0
        + (if 0 ∈ queuedState.batchQueue then 1 else 0) :=
  C3_flush_drains_once id queuedState 0
    (by decide) (by decide) (by decide) (by decide)

/-! ### Disposal (claim C6) -/

mutual

/-- No operation resurrects or runs a disposed effect. -/
theorem execCmd_disposed (F : Nat) (ord : List Nat → List Nat) (e : Nat) :
    ∀ (c : Cmd) (st : RState), (st.effs e).disposed = true →
      ((execCmd F ord c st).effs e).disposed = true
      ∧ (execCmd F ord c st).runLog.count e = st.runLog.count e
  | .setSig i v, st, h => by
      show ((sigSet F i v st).effs e).disposed = true
        ∧ (sigSet F i v st).runLog.count e = st.runLog.count e
      rw [sigSet]
      split
      · exact ⟨h, rfl⟩
      · exact (notify_count_disposed e F).2
          ((updSig st i fun ss => { ss with value := v }).sigs i).subs
          (updSig st i fun ss => { ss with value := v }) h
  | .getSig i, st, h => by
      obtain ⟨q1, _, _, _⟩ := sigGet_quiet st i
      obtain ⟨_, _, _, p4, _, _, _, _, _⟩ := sigGet_presCore st i
      show (((sigGet st i).2.effs e).disposed = true)
        ∧ (sigGet st i).2.runLog.count e = st.runLog.count e
      exact ⟨(p4 e).trans h, by rw [q1]⟩
  | .getComp c, st, h => by
      obtain ⟨q1, _, _, _, _, q6⟩ := compGet_quiet st c
      show (((compGet st c).2.effs e).disposed = true)
        ∧ (compGet st c).2.runLog.count e = st.runLog.count e
      exact ⟨(q6 e).trans h, by rw [q1]⟩
  | .dispose x, st, h => by
      obtain ⟨f1, _, _, _, _, _, _, _, _⟩ := effDispose_frame st x
      show (((effDispose st x).effs e).disposed = true)
        ∧ (effDispose st x).runLog.count e = st.runLog.count e
      exact ⟨effDispose_mono st x e h, by rw [f1]⟩
  | .batch b, st, h => by
      have h1 := execCmds_disposed F ord e b (batchEnter st) h
      have h2 := batchExit_disposed ord (execCmds F ord b (batchEnter st)) e h1.1
      exact ⟨h2.1, h2.2.trans h1.2⟩

theorem execCmds_disposed (F : Nat) (ord : List Nat → List Nat) (e : Nat) :
    ∀ (cs : Cmds) (st : RState), (st.effs e).disposed = true →
      ((execCmds F ord cs st).effs e).disposed = true
      ∧ (execCmds F ord cs st).runLog.count e = st.runLog.count e
  | .nil, st, h => ⟨h, rfl⟩
  | .cons c cs, st, h => by
      have h1 := execCmd_disposed F ord e c st h
      have h2 := execCmds_disposed F ord e cs (execCmd F ord c st) h1.1
      exact ⟨h2.1, h2.2.trans h1.2⟩

end

/-- C6: disposing a live effect marks it disposed, detaches it from
every dependency (its former cells no longer hold it as a subscriber,
and its dependency set is emptied), and afterwards no sequence of
sets, gets, disposals or (nested) batches ever runs its function
again; in particular a flush of a batch that was in progress at
disposal time never runs it. -/
theorem C6_dispose_detaches (st : RState) (e : Nat)
    (hnd : (st.effs e).disposed = false) :
    ((effDispose st e).effs e).disposed = true
    ∧ (∀ i, Dep.sig i ∈ (st.effs e).deps → Sub.eff e ∉ ((effDispose st e).sigs i).subs)
    ∧ (∀ c, Dep.comp c ∈ (st.effs e).deps → Sub.eff e ∉ ((effDispose st e).comps c).subs)
    ∧ ((effDispose st e).effs e).deps = []
    ∧ (∀ (F : Nat) (ord : List Nat → List Nat) (cs : Cmds),
        (execCmds F ord cs (effDispose st e)).runLog.count e
          = (effDispose st e).runLog.count e)
    ∧ (∀ (ord : List Nat → List Nat) (st2 : RState), (st2.effs e).disposed = true →
        (batchExit ord st2).runLog.count e = st2.runLog.count e) := by
  have hds := effDispose_sets st e
  have hrw : effDispose st e
      = updEff (List.foldl (fun acc d => unsubscribeDep acc d (Sub.eff e))
          (updEff st e fun es => { es with disposed := true })
          ((updEff st e fun es => { es with disposed := true }).effs e).deps) e
          fun es => { es with deps := [] } := by
    rw [effDispose, if_neg (by rw [hnd]; simp)]
  obtain ⟨_, _, _, _, _, _, _, _, _, _, _, _, _, u14, u15, _⟩ :=
    unsubFold (.eff e) (((updEff st e fun es => { es with disposed := true }).effs e).deps)
      (updEff st e fun es => { es with disposed := true })
  have hdeps : ((updEff st e fun es => { es with disposed := true }).effs e).deps
      = (st.effs e).deps := by
    rw [updEff_effs, if_pos rfl]
  refine ⟨hds, ?_, ?_, ?_, ?_, ?_⟩
  · intro i hi
    rw [hrw]
    show Sub.eff e ∉ ((List.foldl (fun acc d => unsubscribeDep acc d (Sub.eff e))
      (updEff st e fun es => { es with disposed := true })
      ((updEff st e fun es => { es with disposed := true }).effs e).deps).sigs i).subs
    exact u14 i (by rw [hdeps]; exact hi)
  · intro c hc
    rw [hrw]
    show Sub.eff e ∉ ((List.foldl (fun acc d => unsubscribeDep acc d (Sub.eff e))
      (updEff st e fun es => { es with disposed := true })
      ((updEff st e fun es => { es with disposed := true }).effs e).deps).comps c).subs
    exact u15 c (by rw [hdeps]; exact hc)
  · rw [hrw, updEff_effs, if_pos rfl]
  · intro F ord cs
    exact (execCmds_disposed F ord e cs (effDispose st e) hds).2
  · intro ord st2 h2
    exact (batchExit_disposed ord st2 e h2).2

/-- C6 witness: disposing effect 0 of the two-effect runtime detaches
it and no later commands (including a flush) run it. -/
theorem C6_dispose_detaches_witness :
    ((effDispose twoEffState 0).effs 0).disposed = true
    ∧ (∀ i, Dep.sig i ∈ (twoEffState.effs 0).deps
        → Sub.eff 0 ∉ ((effDispose twoEffState 0).sigs i).subs)
    ∧ (∀ c, Dep.comp c ∈ (twoEffState.effs 0).deps
        → Sub.eff 0 ∉ ((effDispose twoEffState 0).comps c).subs)
    ∧ ((effDispose twoEffState 0).effs 0).deps = []
    ∧ (∀ (F : Nat) (ord : List Nat → List Nat) (cs : Cmds),
        (execCmds F ord cs (effDispose twoEffState 0)).runLog.count 0
          = (effDispose twoEffState 0).runLog.count 0)
    ∧ (∀ (ord : List Nat → List Nat) (st2 : RState), (st2.effs 0).disposed = true →
        (batchExit ord st2).runLog.count 0 = st2.runLog.count 0) :=
  C6_dispose_detaches twoEffState 0 (by decide)

/-! ### Dependency tracking (claim C4) -/

/-- The links `Signal.Get` records when an effect is the active
subscriber. -/
theorem sigGet_active_eff (st : RState) (i e : Nat) (ha : st.active = some (.eff e)) :
    ((sigGet st i).2.effs e).deps = insertIfAbsent (Dep.sig i) (st.effs e).deps
    ∧ (∀ i', ((sigGet st i).2.sigs i').subs
        = if i' = i then insertIfAbsent (Sub.eff e) (st.sigs i).subs else (st.sigs i').subs) := by
  constructor
  · simp only [sigGet, ha, addDepOf]
    show ((updEff st e fun es => { es with deps := insertIfAbsent (Dep.sig i) es.deps }).effs
        e).deps
      = insertIfAbsent (Dep.sig i) (st.effs e).deps
    rw [updEff_effs, if_pos rfl]
  · intro i'
    simp only [sigGet, ha, addDepOf]
    show ((updSig (updEff st e fun es => { es with deps := insertIfAbsent (Dep.sig i) es.deps })
      i fun ss => { ss with subs := insertIfAbsent (Sub.eff e) ss.subs }).sigs i').subs
      = if i' = i then insertIfAbsent (Sub.eff e) (st.sigs i).subs else (st.sigs i').subs
    rw [updSig_sigs]
    split <;> rfl

/-- Running a body with an effect as the active subscriber adds
exactly the read cells to its dependency set and to the cells'
subscriber sets, and never touches computed subscriber sets. -/
theorem interpBody_track (e : Nat) : ∀ (b : Body) (st : RState),
    st.active = some (.eff e) →
    (∀ d, d ∈ ((interpBody b st).2.effs e).deps ↔
      d ∈ (st.effs e).deps
        ∨ ∃ i, d = Dep.sig i ∧ i ∈ bodyReads b (fun j => (st.sigs j).value))
    ∧ (∀ i, Sub.eff e ∈ ((interpBody b st).2.sigs i).subs ↔
      Sub.eff e ∈ (st.sigs i).subs ∨ i ∈ bodyReads b (fun j => (st.sigs j).value)) := by
  intro b
  induction b with
  | ret v =>
      intro st ha
      exact ⟨fun d => by simp [interpBody, bodyReads], fun i => by simp [interpBody, bodyReads]⟩
  | read i k ih =>
      intro st ha
      simp only [interpBody]
      have hfst : (sigGet st i).1 = (st.sigs i).value := sigGet_fst st i
      have ha2 : (sigGet st i).2.active = some (.eff e) := by
        obtain ⟨_, _, _, h4, _⟩ := sigGet_frame st i
        rw [h4, ha]
      obtain ⟨l1, l2⟩ := sigGet_active_eff st i e ha
      have henv : (fun j => ((sigGet st i).2.sigs j).value) = fun j => (st.sigs j).value := by
        funext j
        exact (sigGet_presCore st i).2.2.1 j
      obtain ⟨t1, t2⟩ := ih ((sigGet st i).1) (sigGet st i).2 ha2
      rw [hfst] at t1 t2 ⊢
      rw [henv] at t1 t2
      constructor
      · intro d
        rw [t1 d, l1, insertIfAbsent_mem]
        simp only [bodyReads, List.mem_cons]
        constructor
        · rintro ((hd | rfl) | ⟨i2, rfl, hi2⟩)
          · exact Or.inl hd
          · exact Or.inr ⟨i, rfl, Or.inl rfl⟩
          · exact Or.inr ⟨i2, rfl, Or.inr hi2⟩
        · rintro (hd | ⟨i2, rfl, (h1 | h2)⟩)
          · exact Or.inl (Or.inl hd)
          · exact Or.inl (Or.inr (by rw [h1]))
          · exact Or.inr ⟨i2, rfl, h2⟩
      · intro i'
        rw [t2 i', l2 i']
        simp only [bodyReads, List.mem_cons]
        by_cases hii : i' = i
        · subst hii
          rw [if_pos rfl, insertIfAbsent_mem]
          constructor
          · rintro ((hs | _) | hr)
            · exact Or.inl hs
            · exact Or.inr (Or.inl rfl)
            · exact Or.inr (Or.inr hr)
          · rintro (hs | (h1 | h2))
            · exact Or.inl (Or.inl hs)
            · exact Or.inl (Or.inr rfl)
            · exact Or.inr h2
        · rw [if_neg hii]
          constructor
          · rintro (hs | hr)
            · exact Or.inl hs
            · exact Or.inr (Or.inr hr)
          · rintro (hs | (h1 | h2))
            · exact Or.inl hs
            · exact absurd h1 hii
            · exact Or.inr h2

/-- Scenario S3 before mounting: `flag` (signal 0, initially 1 =
true), `a` (signal 1, value 10), `b` (signal 2, value 20), and one
effect reading `flag` and then `a` or `b` depending on it. -/
def s3Base : RState :=
  baseState (fun i => if i = 0 then 1 else if i = 1 then 10 else 20)
    (fun _ => .read 0 fun v =>
      if v == 1 then .read 1 (fun _ => .ret 0) else .read 2 (fun _ => .ret 0))

/-- Scenario S3 after `CreateEffect`'s initial run. -/
def s3State : RState := effRun s3Base 0

/-- C4: after a run of a live effect whose links are symmetric, its
dependency set is exactly the set of cells the run read, the links are
symmetric again (the effect subscribes to exactly the cells in its
dependency set, and to no computed), and — scenario S3 — after the
conditional flips to the `b` branch, a write to `a` does not re-run
the effect while a write to `b` does. -/
theorem C4_deps_equal_reads (st : RState) (e : Nat)
    (hnd : (st.effs e).disposed = false)
    (hsymS : ∀ i, Sub.eff e ∈ (st.sigs i).subs → Dep.sig i ∈ (st.effs e).deps)
    (hsymC : ∀ c, Sub.eff e ∈ (st.comps c).subs → Dep.comp c ∈ (st.effs e).deps) :
    (∀ d, d ∈ ((effRun st e).effs e).deps
      ↔ ∃ i, d = Dep.sig i ∧ i ∈ bodyReads (st.effs e).body (fun j => (st.sigs j).value))
    ∧ (∀ i, Sub.eff e ∈ ((effRun st e).sigs i).subs
      ↔ Dep.sig i ∈ ((effRun st e).effs e).deps)
    ∧ (∀ c, Sub.eff e ∉ ((effRun st e).comps c).subs)
    ∧ (s3State.runLog.length = 1
        ∧ (sigSet 1 2 99 s3State).runLog.length = 1
        ∧ (sigSet 1 0 0 (sigSet 1 2 99 s3State)).runLog.length = 2
        ∧ (sigSet 1 1 77 (sigSet 1 0 0 (sigSet 1 2 99 s3State))).runLog.length = 2
        ∧ (sigSet 1 2 100 (sigSet 1 1 77 (sigSet 1 0 0
            (sigSet 1 2 99 s3State)))).runLog.length = 3) := by
  have hd : ¬(st.effs e).disposed = true := by rw [hnd]; simp
  rw [effRun, if_neg hd]
  set st1 := updEff st e fun es => { es with deps := [] } with hst1
  set st2 := List.foldl (fun acc d => unsubscribeDep acc d (.eff e)) st1
    (st.effs e).deps with hst2
  set st3 : RState := { st2 with active := some (.eff e), runLog := st2.runLog ++ [e] }
    with hst3
  obtain ⟨_, _, _, _, f5, f6, _, _, _, _, _, f12, f13, f14, f15, _⟩ :=
    unsubFold (.eff e) (st.effs e).deps st1
  have hbody : (st3.effs e).body = (st.effs e).body := by
    show (st2.effs e).body = (st.effs e).body
    rw [f6 e, hst1, updEff_effs, if_pos rfl]
  have hdeps0 : (st3.effs e).deps = [] := by
    show (st2.effs e).deps = []
    rw [f6 e, hst1, updEff_effs, if_pos rfl]
  have hnosub : ∀ i, Sub.eff e ∉ (st3.sigs i).subs := by
    intro i
    show Sub.eff e ∉ (st2.sigs i).subs
    by_cases hmem : Dep.sig i ∈ (st.effs e).deps
    · exact f14 i hmem
    · refine f12 i ?_
      show Sub.eff e ∉ (st.sigs i).subs
      intro hin
      exact hmem (hsymS i hin)
  have hnosubC : ∀ c, Sub.eff e ∉ (st3.comps c).subs := by
    intro c
    show Sub.eff e ∉ (st2.comps c).subs
    by_cases hmem : Dep.comp c ∈ (st.effs e).deps
    · exact f15 c hmem
    · refine f13 c ?_
      show Sub.eff e ∉ (st.comps c).subs
      intro hin
      exact hmem (hsymC c hin)
  have henv3 : (fun j => (st3.sigs j).value) = fun j => (st.sigs j).value := by
    funext j
    exact f5 j
  obtain ⟨t1, t2⟩ := interpBody_track e ((st3.effs e).body) st3 rfl
  obtain ⟨_, _, _, q4⟩ := interpBody_quiet ((st3.effs e).body) st3
  have hreads : bodyReads ((st3.effs e).body) (fun j => (st3.sigs j).value)
      = bodyReads ((st.effs e).body) (fun j => (st.sigs j).value) := by
    rw [hbody, henv3]
  rw [hdeps0] at t1
  rw [hreads] at t1 t2
  refine ⟨?_, ?_, ?_, by decide, by decide, by decide, by decide, by decide⟩
  · intro d
    show d ∈ ((interpBody (st3.effs e).body st3).2.effs e).deps
      ↔ ∃ i, d = Dep.sig i ∧ i ∈ bodyReads (st.effs e).body (fun j => (st.sigs j).value)
    rw [t1 d]
    simp
  · intro i
    show Sub.eff e ∈ ((interpBody (st3.effs e).body st3).2.sigs i).subs
      ↔ Dep.sig i ∈ ((interpBody (st3.effs e).body st3).2.effs e).deps
    rw [t2 i, t1 (Dep.sig i)]
    have hns := hnosub i
    simp only [List.not_mem_nil, false_or]
    constructor
    · rintro (hin | hr)
      · exact absurd hin hns
      · exact ⟨i, rfl, hr⟩
    · rintro ⟨i2, heq, hr⟩
      cases heq
      exact Or.inr hr
  · intro c
    show Sub.eff e ∉ ((interpBody (st3.effs e).body st3).2.comps c).subs
    rw [q4 c]
    exact hnosubC c

/-- C4 witness: mounting the S3 effect (its `CreateEffect` run from
the quiescent state) records exactly the read cells symmetrically. -/
theorem C4_deps_equal_reads_witness :
    (∀ d, d ∈ ((effRun s3Base 0).effs 0).deps
      ↔ ∃ i, d = Dep.sig i
          ∧ i ∈ bodyReads (s3Base.effs 0).body (fun j => (s3Base.sigs j).value))
    ∧ (∀ i, Sub.eff 0 ∈ ((effRun s3Base 0).sigs i).subs
      ↔ Dep.sig i ∈ ((effRun s3Base 0).effs 0).deps)
    ∧ (∀ c, Sub.eff 0 ∉ ((effRun s3Base 0).comps c).subs)
    ∧ (s3State.runLog.length = 1
        ∧ (sigSet 1 2 99 s3State).runLog.length = 1
        ∧ (sigSet 1 0 0 (sigSet 1 2 99 s3State)).runLog.length = 2
        ∧ (sigSet 1 1 77 (sigSet 1 0 0 (sigSet 1 2 99 s3State))).runLog.length = 2
        ∧ (sigSet 1 2 100 (sigSet 1 1 77 (sigSet 1 0 0
            (sigSet 1 2 99 s3State)))).runLog.length = 3) :=
  C4_deps_equal_reads s3Base 0 (by decide)
    (fun _ hin => absurd hin (List.not_mem_nil _))
    (fun _ hin => absurd hin (List.not_mem_nil _))

/-! ### Computed laziness (claim C5) -/

/-- `NewComputed` (signal.go lines 145-152): starts dirty, zero value,
no links, function never called. -/
def newComputed (b : Body) : CompSt := ⟨b, 0, true, [], [], 0⟩

theorem compGetTrack_none (st : RState) (c : Nat) (ha : st.active = none) :
    compGetTrack st c = st := by
  simp [compGetTrack, ha]

theorem compGetEval_clean (st1 : RState) (c : Nat) (h : (st1.comps c).dirty = false) :
    compGetEval st1 c = ((st1.comps c).value, st1) := by
  rw [compGetEval, if_neg (by rw [h]; simp)]

/-- Evaluating a dirty computed: the returned value is the function at
the current signal values, the eval counter grows by exactly one, the
dirty flag clears, the active subscriber is restored, no signal value
changes. -/
theorem compGetEval_dirty (st1 : RState) (c : Nat) (h : (st1.comps c).dirty = true) :
    (compGetEval st1 c).1 = bodyVal (st1.comps c).body (fun j => (st1.sigs j).value)
    ∧ ((compGetEval st1 c).2.comps c).evals = (st1.comps c).evals + 1
    ∧ ((compGetEval st1 c).2.comps c).dirty = false
    ∧ (compGetEval st1 c).2.active = st1.active
    ∧ (∀ j, ((compGetEval st1 c).2.sigs j).value = (st1.sigs j).value) := by
  rw [compGetEval, if_pos (by rw [h])]
  set st2 := List.foldl (fun acc d => unsubscribeDep acc d (.comp c)) st1
    (st1.comps c).deps with hst2
  set st3 := updComp st2 c fun cs => { cs with deps := [] } with hst3
  set st4 := updComp { st3 with active := some (.comp c) } c
    fun cs => { cs with evals := cs.evals + 1 } with hst4
  obtain ⟨_, _, _, f4, f5, _, f7, _, _, f10, _, _, _, _, _, _⟩ :=
    unsubFold (.comp c) (st1.comps c).deps st1
  obtain ⟨_, _, v1, _, _, e1, _, _, _⟩ := interpBody_presCore ((st4.comps c).body) st4
  have hbody4 : (st4.comps c).body = (st1.comps c).body := by
    rw [hst4, updComp_comps, if_pos rfl]
    show (st3.comps c).body = (st1.comps c).body
    rw [hst3, updComp_comps, if_pos rfl]
    exact f10 c
  have hvals4 : ∀ j, ((st4.sigs j)).value = (st1.sigs j).value := fun j => f5 j
  have hevals4 : (st4.comps c).evals = (st1.comps c).evals + 1 := by
    rw [hst4, updComp_comps, if_pos rfl]
    show (st3.comps c).evals + 1 = (st1.comps c).evals + 1
    rw [hst3, updComp_comps, if_pos rfl]
    show (st2.comps c).evals + 1 = (st1.comps c).evals + 1
    rw [f7 c]
  refine ⟨?_, ?_, ?_, ?_, ?_⟩
  · show (interpBody (st4.comps c).body st4).1
      = bodyVal (st1.comps c).body fun j => (st1.sigs j).value
    rw [interpBody_fst, hbody4]
    congr 1
    funext j
    exact hvals4 j
  · show ((updComp (interpBody (st4.comps c).body st4).2 c
      fun cs => { cs with value := (interpBody (st4.comps c).body st4).1, dirty := false
        }).comps c).evals = (st1.comps c).evals + 1
    rw [updComp_comps, if_pos rfl]
    show ((interpBody (st4.comps c).body st4).2.comps c).evals = (st1.comps c).evals + 1
    rw [e1 c, hevals4]
  · show ((updComp (interpBody (st4.comps c).body st4).2 c
      fun cs => { cs with value := (interpBody (st4.comps c).body st4).1, dirty := false
        }).comps c).dirty = false
    rw [updComp_comps, if_pos rfl]
  · show (st3.active) = st1.active
    rw [hst3]
    show st2.active = st1.active
    exact f4
  · intro j
    show (((interpBody (st4.comps c).body st4).2.sigs j)).value = (st1.sigs j).value
    rw [v1 j]
    exact hvals4 j

/-- A positive-fuel `Computed.onDependencyUpdated` leaves its target
dirty. -/
theorem compOnDep_marks (F c : Nat) (st : RState) (hF : 0 < F) :
    ((compOnDep F c st).comps c).dirty = true := by
  cases F with
  | zero => exact absurd hF (by simp)
  | succ F =>
      rw [compOnDep_succ]
      split
      · rename_i hdirty
        simpa using hdirty
      · exact (notifySubs_ok F _ _).1.2.2.2.2.2.2.2.2 c (by rw [updComp_comps, if_pos rfl])

/-- Notifying a snapshot containing a computed leaves it dirty (with
positive fuel). -/
theorem notifySubs_marks (F c : Nat) (hF : 0 < F) : ∀ (l : List Sub) (st : RState),
    Sub.comp c ∈ l → ((notifySubs F l st).comps c).dirty = true := by
  intro l
  induction l with
  | nil => intro st h; exact absurd h (List.not_mem_nil _)
  | cons s rest ih =>
      intro st h
      rw [notifySubs_cons]
      rcases List.mem_cons.mp h with rfl | hrest
      · exact (notifySubs_ok F rest _).1.2.2.2.2.2.2.2.2 c (compOnDep_marks F c st hF)
      · rcases s with x | c2
        · exact ih _ hrest
        · exact ih _ hrest

/-- A value-changing `Signal.Set` marks every subscribed computed
dirty. -/
theorem sigSet_marks (F i c : Nat) (v : Int) (st : RState) (hF : 0 < F)
    (hmem : Sub.comp c ∈ (st.sigs i).subs) (hne : (st.sigs i).value ≠ v) :
    ((sigSet F i v st).comps c).dirty = true := by
  rw [sigSet]
  split
  · rename_i hbeq
    exact absurd (beq_iff_eq.mp hbeq) hne
  · refine notifySubs_marks F c hF _ _ ?_
    show Sub.comp c ∈ ((updSig st i fun ss => { ss with value := v }).sigs i).subs
    rw [updSig_sigs, if_pos rfl]
    exact hmem

/-- A top-level `Computed.Get` on a clean computed returns the cache
and changes nothing. -/
theorem compGet_clean (st : RState) (c : Nat) (ha : st.active = none)
    (hcl : (st.comps c).dirty = false) :
    compGet st c = ((st.comps c).value, st) := by
  rw [compGet, compGetTrack_none st c ha, compGetEval_clean st c hcl]

/-- A top-level `Computed.Get` on a dirty computed evaluates the
function exactly once at the current signal values and clears dirty. -/
theorem compGet_dirty (st : RState) (c : Nat) (ha : st.active = none)
    (hdi : (st.comps c).dirty = true) :
    (compGet st c).1 = bodyVal (st.comps c).body (fun j => (st.sigs j).value)
    ∧ ((compGet st c).2.comps c).evals = (st.comps c).evals + 1
    ∧ ((compGet st c).2.comps c).dirty = false
    ∧ (compGet st c).2.active = none := by
  have hrw : compGet st c = compGetEval st c := by
    rw [compGet, compGetTrack_none st c ha]
  obtain ⟨d1, d2, d3, d4, _⟩ := compGetEval_dirty st c hdi
  rw [hrw]
  exact ⟨d1, d2, d3, d4.trans ha⟩

/-- Scenario S2: signal `a = 0` with value 1 and the derived cell
`d = computed(fun => 2 * a.get())`, fresh. -/
def s2State : RState :=
  { baseState (fun _ => 1) (fun _ => .ret 0) with
      comps := fun _ => newComputed (.read 0 fun v => .ret (2 * v)) }

/-- C5: a derived cell is created dirty with its function never
called; a top-level `get` on a clean computed returns the cache and
changes nothing; a `get` on a dirty computed calls the function
exactly once, returns it applied to the current dependency values and
clears dirty — so consecutive gets evaluate once in total; a `set`
never calls the function, only marking subscribed computeds dirty for
the next `get`.  Scenario S2: `evals` goes 0, 1 after two gets, stays
1 after `a.set(5)`, and the next get returns 10 with `evals = 2`. -/
theorem C5_computed_lazy (b : Body) (st : RState) (c F i : Nat) (v : Int) :
    ((newComputed b).dirty = true ∧ (newComputed b).evals = 0)
    ∧ (st.active = none → (st.comps c).dirty = false →
        compGet st c = ((st.comps c).value, st))
    ∧ (st.active = none → (st.comps c).dirty = true →
        (compGet st c).1 = bodyVal (st.comps c).body (fun j => (st.sigs j).value)
        ∧ ((compGet st c).2.comps c).evals = (st.comps c).evals + 1
        ∧ ((compGet st c).2.comps c).dirty = false
        ∧ (compGet st c).2.active = none)
    ∧ (st.active = none → (st.comps c).dirty = true →
        ((compGet (compGet st c).2 c).2.comps c).evals = (st.comps c).evals + 1)
    ∧ (∀ c2, ((sigSet F i v st).comps c2).evals = (st.comps c2).evals)
    ∧ (0 < F → Sub.comp c ∈ (st.sigs i).subs → (st.sigs i).value ≠ v →
        ((sigSet F i v st).comps c).dirty = true)
    ∧ ((s2State.comps 0).evals = 0
        ∧ ((compGet s2State 0).2.comps 0).evals = 1
        ∧ (compGet s2State 0).1 = 2
        ∧ ((compGet (compGet s2State 0).2 0).2.comps 0).evals = 1
        ∧ ((sigSet 1 0 5 (compGet (compGet s2State 0).2 0).2).comps 0).evals = 1
        ∧ (compGet (sigSet 1 0 5 (compGet (compGet s2State 0).2 0).2) 0).1 = 10
        ∧ ((compGet (sigSet 1 0 5 (compGet (compGet s2State 0).2 0).2) 0).2.comps 0).evals
            = 2) := by
  refine ⟨⟨rfl, rfl⟩, compGet_clean st c, compGet_dirty st c, ?_, ?_, ?_,
    by decide, by decide, by decide, by decide, by decide, by decide, by decide⟩
  · intro ha hdi
    obtain ⟨_, d2, d3, d4⟩ := compGet_dirty st c ha hdi
    rw [compGet_clean (compGet st c).2 c d4 d3, d2]
  · exact fun c2 => (sigSet_ok F i v st).2.2.2.2.1 c2
  · exact fun hF hmem hne => sigSet_marks F i c v st hF hmem hne

/-- C5 witness: in scenario S2 two consecutive gets evaluate once in
total, and a later value-changing write marks the computed dirty. -/
theorem C5_computed_lazy_witness :
    ((compGet (compGet s2State 0).2 0).2.comps 0).evals = (s2State.comps 0).evals + 1
    ∧ ((sigSet 1 0 5 (compGet s2State 0).2).comps 0).dirty = true :=
  ⟨(C5_computed_lazy (.read 0 fun v => .ret (2 * v)) s2State 0 1 0 5).2.2.2.1
      (by decide) (by decide),
    (C5_computed_lazy (.read 0 fun v => .ret (2 * v)) (compGet s2State 0).2 0 1 0
        5).2.2.2.2.2.1 (by decide) (by decide) (by decide)⟩

/-! ## The layout engine (`LayoutNode.Measure`)

Embedding of the measure pass from the layout engine, on the fragment
where leaf content is a string (a content wrapper never resolves to a
nested layout node).  Go `int` arithmetic is `Int`; Go integer
division truncates toward zero. -/

/-- Layout direction (`DirRow`, `DirColumn`). -/
inductive Direction where
  | row
  | col
deriving DecidableEq, Repr

/-- How a node is sized (`SizeAuto`, `SizeFixed`, `SizeFlex`). -/
inductive SizeType where
  | auto
  | fixed
  | flex
deriving DecidableEq, Repr

/-- A dimension constraint: type plus value (cells for Fixed, weight
for Flex). -/
structure Size where
  ty : SizeType
  value : Int
deriving DecidableEq, Repr

/-- `Fixed(n)`. -/
def Size.Fixed (n : Int) : Size := ⟨.fixed, n⟩

/-- `Flex(n)`. -/
def Size.Flex (n : Int) : Size := ⟨.flex, n⟩

/-- `Auto()`. -/
def Size.Auto : Size := ⟨.auto, 0⟩

mutual

/-- A layout node: direction, width and height constraints, padding,
border flag, optional leaf content (a string), and children (the
linked child list, as a sequence). -/
inductive LNode where
  | mk : Direction → Size → Size → Int → Bool → Option String → LForest → LNode

/-- The children of a layout node, in order. -/
inductive LForest where
  | nil : LForest
  | cons : LNode → LForest → LForest

end

def LNode.dir : LNode → Direction | .mk d _ _ _ _ _ _ => d

def LNode.width : LNode → Size | .mk _ w _ _ _ _ _ => w

def LNode.height : LNode → Size | .mk _ _ h _ _ _ _ => h

def LNode.padding : LNode → Int | .mk _ _ _ p _ _ _ => p

def LNode.border : LNode → Bool | .mk _ _ _ _ b _ _ => b

def LNode.content : LNode → Option String | .mk _ _ _ _ _ c _ => c

def LNode.children : LNode → LForest | .mk _ _ _ _ _ _ f => f

def LForest.toList : LForest → List LNode
  | .nil => []
  | .cons c f => c :: toList f

/-- Go integer division (truncation toward zero). -/
def goDiv (a b : Int) : Int := Int.tdiv a b

/-- `measureContent`: widest line (clamped to `maxW`) by number of
lines (clamped to `maxH`). -/
def measureContent (s : String) (maxW maxH : Int) : Int × Int :=
  let lines := s.splitOn "\n"
  let maxLineLen := lines.foldl (fun m line => max m (Int.ofNat line.length)) 0
  (min maxLineLen maxW, min (Int.ofNat lines.length) maxH)

/-- The main-axis size type of a direct layout child. -/
def mainTy (dir : Direction) (n : LNode) : SizeType :=
  if dir = .row then n.width.ty else n.height.ty

/-- The main-axis size value (fixed cells or flex weight) of a direct
layout child. -/
def mainVal (dir : Direction) (n : LNode) : Int :=
  if dir = .row then n.width.value else n.height.value

mutual

/-- `LayoutNode.Measure`: border-box deductions, first pass over the
children (fixed and auto measured, flex weights summed), flex space,
second pass measuring flex children at their share, then the node's
own computed size (`Auto` bubbles content size, otherwise the incoming
constraint is returned).  Returns the node's computed (w, h) and the
children's computed geometries in order. -/
def measureNode : LNode → Int → Int → (Int × Int) × List (Int × Int)
  | .mk dir width height padding border _ children, constraintW, constraintH =>
      let hDed := padding * 2 + (if border then 2 else 0)
      let vDed := padding * 2 + (if border then 2 else 0)
      let ccW := max (constraintW - hDed) 0
      let ccH := max (constraintH - vDed) 0
      let p1 := measurePass1 dir ccW ccH children
      let totalFixed := p1.1
      let totalAuto := p1.2.1
      let totalFlexWeight := p1.2.2.1
      let availableSpace :=
        max ((if dir = .row then ccW else ccH) - totalFixed - totalAuto) 0
      let geoms := measurePass2 dir ccW ccH availableSpace totalFlexWeight children p1.2.2.2
      let maxCross := geoms.foldl
        (fun m g => max m (if dir = .row then g.2 else g.1)) 0
      let finalW :=
        if width.ty = .auto then
          (if dir = .row then geoms.foldl (fun s g => s + g.1) 0 + hDed
           else maxCross + hDed)
        else constraintW
      let finalH :=
        if height.ty = .auto then
          (if dir = .row then maxCross + vDed
           else geoms.foldl (fun s g => s + g.2) 0 + vDed)
        else constraintH
      ((finalW, finalH), geoms)

/-- First measure pass: returns (totalFixed, totalAuto,
totalFlexWeight, geometries) with flex children left at the zero
geometry. -/
def measurePass1 (dir : Direction) (ccW ccH : Int) :
    LForest → Int × Int × Int × List (Int × Int)
  | .nil => (0, 0, 0, [])
  | .cons child f =>
      let rest := measurePass1 dir ccW ccH f
      match child.content with
      | none =>
          match mainTy dir child with
          | .fixed =>
              let r :=
                if dir = .row then measureNode child (mainVal dir child) ccH
                else measureNode child ccW (mainVal dir child)
              let m := if dir = .row then r.1.1 else r.1.2
              (rest.1 + m, rest.2.1, rest.2.2.1, r.1 :: rest.2.2.2)
          | .auto =>
              let r := measureNode child ccW ccH
              let m := if dir = .row then r.1.1 else r.1.2
              (rest.1, rest.2.1 + m, rest.2.2.1, r.1 :: rest.2.2.2)
          | .flex =>
              (rest.1, rest.2.1, rest.2.2.1 + mainVal dir child, (0, 0) :: rest.2.2.2)
      | some s =>
          let wh := measureContent s ccW ccH
          let m := if dir = .row then wh.1 else wh.2
          (rest.1, rest.2.1 + m, rest.2.2.1, wh :: rest.2.2.2)

/-- Second measure pass: measure each flex child at its share of the
available space; other geometries are kept from the first pass. -/
def measurePass2 (dir : Direction) (ccW ccH availableSpace totalFlexWeight : Int) :
    LForest → List (Int × Int) → List (Int × Int)
  | .nil, _ => []
  | .cons _ _, [] => []
  | .cons child f, g :: gs =>
      let g' :=
        if child.content = none ∧ mainTy dir child = .flex then
          let weight := mainVal dir child
          let share :=
            if 0 < totalFlexWeight then goDiv (availableSpace * weight) totalFlexWeight
            else 0
          let r :=
            if dir = .row then measureNode child share ccH
            else measureNode child ccW share
          r.1
        else g
      g' :: measurePass2 dir ccW ccH availableSpace totalFlexWeight f gs

end

/-- The main-axis component of a geometry. -/
def mainOf (dir : Direction) (g : Int × Int) : Int :=
  if dir = .row then g.1 else g.2

/-- The content width constraint a node passes to its children. -/
def contentConstraintW (n : LNode) (constraintW : Int) : Int :=
  max (constraintW - (n.padding * 2 + (if n.border then 2 else 0))) 0

/-- The content height constraint a node passes to its children. -/
def contentConstraintH (n : LNode) (constraintH : Int) : Int :=
  max (constraintH - (n.padding * 2 + (if n.border then 2 else 0))) 0

/-- `totalFixed` after the first measure pass. -/
def fixedTotal (n : LNode) (constraintW constraintH : Int) : Int :=
  (measurePass1 n.dir (contentConstraintW n constraintW) (contentConstraintH n constraintH)
    n.children).1

/-- `totalAuto` after the first measure pass. -/
def autoTotal (n : LNode) (constraintW constraintH : Int) : Int :=
  (measurePass1 n.dir (contentConstraintW n constraintW) (contentConstraintH n constraintH)
    n.children).2.1

/-- `totalFlexWeight` after the first measure pass. -/
def flexWeightTotal (n : LNode) (constraintW constraintH : Int) : Int :=
  (measurePass1 n.dir (contentConstraintW n constraintW) (contentConstraintH n constraintH)
    n.children).2.2.1

/-- `availableSpace`: content main-axis constraint minus fixed and
auto totals, clamped at zero. -/
def availOf (n : LNode) (constraintW constraintH : Int) : Int :=
  max ((if n.dir = .row then contentConstraintW n constraintW
        else contentConstraintH n constraintH)
    - fixedTotal n constraintW constraintH - autoTotal n constraintW constraintH) 0

theorem measurePass1_length (dir : Direction) (ccW ccH : Int) :
    ∀ f : LForest,
      ((measurePass1 dir ccW ccH f).2.2.2).length = (LForest.toList f).length
  | .nil => rfl
  | .cons child f => by
      have ih := measurePass1_length dir ccW ccH f
      simp only [measurePass1, LForest.toList]
      rcases child.content with _ | s
      · rcases mainTy dir child with _ | _ | _ <;>
        · simp only [List.length_cons]
          rw [ih]
      · simp only [List.length_cons]
        rw [ih]

/-- A node whose width is not `Auto` measures to its incoming width
constraint. -/
theorem measureNode_w_nonauto (n : LNode) (cW cH : Int) (h : n.width.ty ≠ .auto) :
    (measureNode n cW cH).1.1 = cW := by
  rcases n with ⟨dir, width, height, padding, border, cnt, children⟩
  simp only [LNode.width] at h
  simp only [measureNode]
  rw [if_neg h]

/-- A node whose height is not `Auto` measures to its incoming height
constraint. -/
theorem measureNode_h_nonauto (n : LNode) (cW cH : Int) (h : n.height.ty ≠ .auto) :
    (measureNode n cW cH).1.2 = cH := by
  rcases n with ⟨dir, width, height, padding, border, cnt, children⟩
  simp only [LNode.height] at h
  simp only [measureNode]
  rw [if_neg h]

/-- The second pass gives every flex child the geometry of measuring
it at its share. -/
theorem measurePass2_get_flex (dir : Direction) (ccW ccH avail totW : Int) :
    ∀ (f : LForest) (gs : List (Int × Int)) (j : Nat) (cj : LNode),
      (LForest.toList f).get? j = some cj → gs.length = (LForest.toList f).length →
      cj.content = none → mainTy dir cj = .flex →
      (measurePass2 dir ccW ccH avail totW f gs).get? j
        = some ((if dir = .row
            then measureNode cj
              (if 0 < totW then goDiv (avail * mainVal dir cj) totW else 0) ccH
            else measureNode cj ccW
              (if 0 < totW then goDiv (avail * mainVal dir cj) totW else 0)).1)
  | .nil, gs, j, cj, hget, _, _, _ => by
      simp [LForest.toList] at hget
  | .cons c f, [], j, cj, hget, hlen, _, _ => by
      simp [LForest.toList] at hlen
  | .cons c f, g :: gs, 0, cj, hget, hlen, hcont, hflex => by
      simp only [LForest.toList, List.get?] at hget
      cases hget
      simp only [measurePass2, List.get?]
      rw [if_pos ⟨hcont, hflex⟩]
  | .cons c f, g :: gs, j + 1, cj, hget, hlen, hcont, hflex => by
      simp only [LForest.toList, List.get?] at hget
      simp only [measurePass2, List.get?]
      refine measurePass2_get_flex dir ccW ccH avail totW f gs j cj hget ?_ hcont hflex
      simpa [LForest.toList] using hlen

/-- C7: in the measure pass, each flex child's main-axis size is
`(availableSpace · weight) / totalFlexWeight` (Go integer division,
no remainder redistribution), where `availableSpace` is the content
main-axis constraint minus the fixed and auto totals clamped at zero;
concretely, a `Row` of two `flex(1)` children at width 20 measures
them at widths 10 and 10, and of `flex(1)` and `flex(3)` at widths 5
and 15. -/
theorem C7_flex_share (n : LNode) (constraintW constraintH : Int) (j : Nat) (cj : LNode)
    (hget : n.children.toList.get? j = some cj)
    (hcont : cj.content = none) (hflex : mainTy n.dir cj = .flex)
    (hpos : 0 < flexWeightTotal n constraintW constraintH) :
    (∃ g, (measureNode n constraintW constraintH).2.get? j = some g
      ∧ mainOf n.dir g
          = goDiv (availOf n constraintW constraintH * mainVal n.dir cj)
              (flexWeightTotal n constraintW constraintH))
    ∧ ((measureNode (.mk .row Size.Auto Size.Auto 0 false none
          (.cons (.mk .row (Size.Flex 1) (Size.Fixed 1) 0 false none .nil)
            (.cons (.mk .row (Size.Flex 1) (Size.Fixed 1) 0 false none .nil) .nil)))
          20 5).2.map Prod.fst = [10, 10]
      ∧ (measureNode (.mk .row Size.Auto Size.Auto 0 false none
          (.cons (.mk .row (Size.Flex 1) (Size.Fixed 1) 0 false none .nil)
            (.cons (.mk .row (Size.Flex 3) (Size.Fixed 1) 0 false none .nil) .nil)))
          20 5).2.map Prod.fst = [5, 15]) := by
  refine ⟨?_, by decide, by decide⟩
  rcases hn : n with ⟨dir, width, height, padding, border, cnt, children⟩
  have hccW : contentConstraintW n constraintW
      = max (constraintW - (padding * 2 + (if border then 2 else 0))) 0 := by
    rw [hn]; rfl
  have hccH : contentConstraintH n constraintH
      = max (constraintH - (padding * 2 + (if border then 2 else 0))) 0 := by
    rw [hn]; rfl
  subst hn
  simp only [measureNode]
  rw [measurePass2_get_flex dir _ _ _ _ children
    ((measurePass1 dir (max (constraintW - (padding * 2 + (if border then 2 else 0))) 0)
      (max (constraintH - (padding * 2 + (if border then 2 else 0))) 0) children).2.2.2)
    j cj hget (measurePass1_length _ _ _ _) hcont hflex]
  · refine ⟨_, rfl, ?_⟩
    have hpos' : 0 < (measurePass1 dir
        (max (constraintW - (padding * 2 + (if border then 2 else 0))) 0)
        (max (constraintH - (padding * 2 + (if border then 2 else 0))) 0)
        children).2.2.1 := hpos
    rcases hdir : dir with _ | _ <;> subst hdir
    · have hcjw : cj.width.ty = .flex := by
        simpa [mainTy, LNode.dir] using hflex
      have hna : cj.width.ty ≠ .auto := by rw [hcjw]; simp
      simp only [mainOf, LNode.dir, if_pos hpos']
      simp only [availOf, flexWeightTotal, fixedTotal, autoTotal, contentConstraintW,
        contentConstraintH, LNode.dir, LNode.children, LNode.padding, LNode.border]
      simp [measureNode_w_nonauto cj _ _ hna]
    · have hcjh : cj.height.ty = .flex := by
        simpa [mainTy, LNode.dir] using hflex
      have hna : cj.height.ty ≠ .auto := by rw [hcjh]; simp
      simp only [mainOf, LNode.dir, if_pos hpos']
      simp only [availOf, flexWeightTotal, fixedTotal, autoTotal, contentConstraintW,
        contentConstraintH, LNode.dir, LNode.children, LNode.padding, LNode.border]
      simp [measureNode_h_nonauto cj _ _ hna]

/-- The `flex(1)` leaf used in the S6 scenario. -/
def flexLeaf1 : LNode := .mk .row (Size.Flex 1) (Size.Fixed 1) 0 false none .nil

/-- The `flex(3)` leaf used in the S6 scenario. -/
def flexLeaf3 : LNode := .mk .row (Size.Flex 3) (Size.Fixed 1) 0 false none .nil

/-- The S6 row: `Row(flex(1), flex(3))`. -/
def s6Row : LNode :=
  .mk .row Size.Auto Size.Auto 0 false none (.cons flexLeaf1 (.cons flexLeaf3 .nil))

/-- C7 witness: in `Row(flex(1), flex(3))` at width 20 the first
child's measured main size is `(20 · 1) / 4 = 5`. -/
theorem C7_flex_share_witness :
    (∃ g, (measureNode s6Row 20 5).2.get? 0 = some g
      ∧ mainOf s6Row.dir g
          = goDiv (availOf s6Row 20 5 * mainVal s6Row.dir flexLeaf1)
              (flexWeightTotal s6Row 20 5))
    ∧ ((measureNode (.mk .row Size.Auto Size.Auto 0 false none
          (.cons (.mk .row (Size.Flex 1) (Size.Fixed 1) 0 false none .nil)
            (.cons (.mk .row (Size.Flex 1) (Size.Fixed 1) 0 false none .nil) .nil)))
          20 5).2.map Prod.fst = [10, 10]
      ∧ (measureNode (.mk .row Size.Auto Size.Auto 0 false none
          (.cons (.mk .row (Size.Flex 1) (Size.Fixed 1) 0 false none .nil)
            (.cons (.mk .row (Size.Flex 3) (Size.Fixed 1) 0 false none .nil) .nil)))
          20 5).2.map Prod.fst = [5, 15]) :=
  C7_flex_share s6Row 20 5 0 flexLeaf1 rfl rfl rfl (by decide)

/-! ## Styles, colors, and the screen (style.go, screen.go, parseInline)

The inline parser's colour branch, `GetColorCode` and the renderer's
`writeStyle`. -/

/-- `basement.Style`. -/
structure Style where
  Bold : Bool := false
  Dim : Bool := false
  Italic : Bool := false
  Underline : Bool := false
  Strike : Bool := false
  Reverse : Bool := false
  Blink : Bool := false
  Color : String := ""
  BgColor : String := ""
deriving DecidableEq, Repr

/-- `GetColorCode` (style.go lines 17-30): the ANSI escape for a
colour name, empty for unknown names. -/
def GetColorCode (name : String) : String :=
  if name = "black" then "\x1b[30m"
  else if name = "red" then "\x1b[31m"
  else if name = "green" then "\x1b[32m"
  else if name = "blue" then "\x1b[34m"
  else if name = "magenta" then "\x1b[35m"
  else if name = "cyan" then "\x1b[36m"
  else if name = "white" then "\x1b[37m"
  else if name = "yellow" then "\x1b[33m"
  else if name = "grey" then "\x1b[90m"
  else ""

/-- `strings.Index` on a character: first index or `-1`. -/
def goIndexOf : List Char → Char → Int
  | [], _ => -1
  | x :: xs, c =>
      if x = c then 0
      else
        let r := goIndexOf xs c
        if r = -1 then -1 else r + 1

/-- `strings.LastIndex` on a character: last index or `-1`. -/
def goLastIndexOf : List Char → Char → Int
  | [], _ => -1
  | x :: xs, c =>
      let r := goLastIndexOf xs c
      if r ≠ -1 then r + 1
      else if x = c then 0 else -1

/-- Go slice `l[a:b]`. -/
def goSlice (l : List Char) (a b : Int) : List Char :=
  (l.drop a.toNat).take (b - a).toNat

/-- The colour branch of `parseInline` (lines 174-200): given a
matched token containing `#`, build the style node's style — a
background style for `!#name(..)`, a foreground style for
`#name(..)`; a malformed token falls through as literal text
(`none`). -/
def colorTokenStyle (token : List Char) : Option Style :=
  let isBg := match token with | '!' :: _ => true | _ => false
  let startParen := goIndexOf token '('
  let endParen := goLastIndexOf token ')'
  if startParen > -1 ∧ endParen > startParen then
    let colorName :=
      if isBg then goSlice token 2 startParen else goSlice token 1 startParen
    let ansiColor := GetColorCode (String.mk colorName)
    some (if isBg then { BgColor := ansiColor } else { Color := ansiColor })
  else none

/-- Terminal capability flags of the screen. -/
structure Caps where
  supportsItalic : Bool := true
  supportsStrike : Bool := true
deriving DecidableEq, Repr

/-- `Screen.writeStyle` (screen.go lines 509-544): the escape strings
written for a style, in emission order. -/
def writeStyle (caps : Caps) (st : Style) : List String :=
  (if st.Bold then ["\x1b[1m"] else [])
  ++ (if st.Dim then ["\x1b[2m"] else [])
  ++ (if st.Italic then [if caps.supportsItalic then "\x1b[3m" else "\x1b[2m"] else [])
  ++ (if st.Underline then ["\x1b[4m"] else [])
  ++ (if st.Strike then (if caps.supportsStrike then ["\x1b[9m"] else []) else [])
  ++ (if st.Reverse then ["\x1b[7m"] else [])
  ++ (if st.Blink then ["\x1b[5m"] else [])
  ++ (if st.Color ≠ "" then [st.Color] else [])
  ++ (if st.BgColor ≠ "" then [st.BgColor] else [])

/-- The numeric SGR parameter of a single `ESC[..m` escape. -/
def sgrCode (s : String) : Option Nat :=
  match s.data with
  | '\x1b' :: '[' :: rest =>
      let digits := rest.takeWhile Char.isDigit
      if rest = digits ++ ['m'] ∧ digits ≠ [] then
        some (digits.foldl (fun n c => n * 10 + (c.toNat - 48)) 0)
      else none
  | _ => none

/-- C8, code evaluated at the failing input: parsing the background
token `!#red(x)` stores the foreground escape `ESC[31m` in the style's
`BgColor`, and the renderer emits for it exactly the same escape it
emits for the foreground token `#red(x)` — SGR parameter 31, in the
30-37/90 foreground range, not a 40-47/100-107 background code; the
same holds for every recognized colour name (SGR parameters 30-37 and
90 only). -/
theorem C8_background_token_emits_foreground_code :
    colorTokenStyle ("!#red(x)".data) = some { BgColor := "\x1b[31m" }
    ∧ colorTokenStyle ("#red(x)".data) = some { Color := "\x1b[31m" }
    ∧ writeStyle {} { BgColor := "\x1b[31m" } = ["\x1b[31m"]
    ∧ writeStyle {} { Color := "\x1b[31m" } = ["\x1b[31m"]
    ∧ writeStyle {} { BgColor := "\x1b[31m" } = writeStyle {} { Color := "\x1b[31m" }
    ∧ sgrCode "\x1b[31m" = some 31
    ∧ ¬(40 ≤ 31 ∧ 31 ≤ 47) ∧ ¬(100 ≤ 31 ∧ 31 ≤ 107)
    ∧ (sgrCode (GetColorCode "black") = some 30
      ∧ sgrCode (GetColorCode "red") = some 31
      ∧ sgrCode (GetColorCode "green") = some 32
      ∧ sgrCode (GetColorCode "blue") = some 34
      ∧ sgrCode (GetColorCode "magenta") = some 35
      ∧ sgrCode (GetColorCode "cyan") = some 36
      ∧ sgrCode (GetColorCode "white") = some 37
      ∧ sgrCode (GetColorCode "yellow") = some 33
      ∧ sgrCode (GetColorCode "grey") = some 90) := by
  refine ⟨by decide, by decide, by decide, by decide, by decide, by decide,
    by decide, by decide, ?_⟩
  refine ⟨?_, ?_, ?_, ?_, ?_, ?_, ?_, ?_, ?_⟩ <;> decide

/-! ## The double-buffered screen (screen.go) -/

/-- `tui.Cell`: a rune (zero means blank) and a style. -/
structure Cell where
  Char : Nat := 0
  CStyle : Style := {}
deriving DecidableEq, Repr

/-- The zero cell a fresh or invalidated buffer holds. -/
def zeroCell : Cell := {}

/-- The space cell `Frame` clears the back buffer to. -/
def spaceCell : Cell := { Char := 32 }

/-- `tui.Buffer`: width, height, and the row-major cell slice
(modelled as a function on indices; indices `≥ Width · Height` are
never read). -/
structure BufferF where
  Width : Nat
  Height : Nat
  Cells : Nat → Cell

/-- `NewBuffer`: all cells zero. -/
def NewBuffer (w h : Nat) : BufferF := ⟨w, h, fun _ => zeroCell⟩

/-- `Buffer.Set` (screen.go lines 287-292): silently clip
out-of-bounds writes, otherwise store at `y·Width + x`. -/
def bufSet (b : BufferF) (x y : Int) (ch : Nat) (st : Style) : BufferF :=
  if x < 0 ∨ (b.Width : Int) ≤ x ∨ y < 0 ∨ (b.Height : Int) ≤ y then b
  else
    { b with Cells := fun j =>
        if j = (y * b.Width + x).toNat then { Char := ch, CStyle := st } else b.Cells j }

/-- `Buffer.Resize` (screen.go lines 303-324): fresh zeroed cells,
with the overlapping rectangle copied from the old buffer. -/
def bufResize (b : BufferF) (w h : Nat) : BufferF :=
  { Width := w
    Height := h
    Cells := fun idx =>
      let y := idx / w
      let x := idx % w
      if idx < w * h ∧ x < min w b.Width ∧ y < min h b.Height then
        b.Cells (y * b.Width + x)
      else zeroCell }

/-- `drawTextUnlocked` (screen.go lines 554-565): write runes from
`(x, y)`, resetting the column and advancing the row on newline. -/
def drawTextGo (b : BufferF) (x : Int) (st : Style) : List Nat → Int → Int → BufferF
  | [], _, _ => b
  | r :: rest, col, y =>
      if r = 10 then drawTextGo b x st rest x (y + 1)
      else drawTextGo (bufSet b col y r st) x st rest (col + 1) y

def drawTextUnlocked (b : BufferF) (x y : Int) (text : List Nat) (st : Style) : BufferF :=
  drawTextGo b x st text x y

/-- One text draw performed inside `Frame`'s callback. -/
structure DrawOp where
  x : Int
  y : Int
  text : List Nat
  style : Style

/-- Apply the draw callback's writes to the back buffer. -/
def applyOps (ops : List DrawOp) (b : BufferF) : BufferF :=
  ops.foldl (fun acc op => drawTextUnlocked acc op.x op.y op.text op.style) b

/-- The screen's two buffers. -/
structure ScreenM where
  Front : BufferF
  Back : BufferF

/-- One step of the diff loop (screen.go lines 462-499): if the back
cell differs from the front cell, emit a cell write and copy the back
cell into the front. -/
def diffStep (back : BufferF) (acc : (Nat → Cell) × List Nat) (idx : Nat) :
    (Nat → Cell) × List Nat :=
  let bc := back.Cells idx
  let fc := acc.1 idx
  if bc ≠ fc then (fun j => if j = idx then bc else acc.1 j, acc.2 ++ [idx]) else acc

/-- The indices `y·W + x` visited by the row-major double loop, in
order. -/
def rowMajor (W : Nat) : Nat → List Nat
  | 0 => []
  | h + 1 => rowMajor W h ++ (List.range W).map (fun x => h * W + x)

/-- `renderUnlocked`: the diff loop over the back buffer's grid,
returning the updated front buffer and the list of cell writes
emitted (in order). -/
def renderUnlocked (s : ScreenM) : BufferF × List Nat :=
  let r := (rowMajor s.Back.Width s.Back.Height).foldl (diffStep s.Back) (s.Front.Cells, [])
  ({ s.Front with Cells := r.1 }, r.2)

/-- `Frame(draw)` (screen.go lines 439-454): clear the back buffer to
spaces, run the draw callback, then diff-and-flush; returns the new
screen and the emitted cell writes. -/
def frame (s : ScreenM) (ops : List DrawOp) : ScreenM × List Nat :=
  let back1 : BufferF := { s.Back with Cells := fun _ => spaceCell }
  let back2 := applyOps ops back1
  let r := renderUnlocked ⟨s.Front, back2⟩
  (⟨r.1, back2⟩, r.2)

/-- Modelled from the spec: the resize-signal handler is absent from
`src/` (only `Buffer.Resize`, its tests and `NewScreen` are present).
Spec §4.3 Resize: on the terminal-size-changed signal, re-query the
size, resize both buffers, and invalidate the front buffer
(zero-fill) to force a full redraw. -/
def handleResize (s : ScreenM) (w h : Nat) : ScreenM :=
  { Front := { bufResize s.Front w h with Cells := fun _ => zeroCell }
    Back := bufResize s.Back w h }

/-! ### Diff-loop lemmas -/

theorem diffStep_fst_self (back : BufferF) (acc : (Nat → Cell) × List Nat) (idx : Nat) :
    (diffStep back acc idx).1 idx = back.Cells idx := by
  by_cases h : back.Cells idx ≠ acc.1 idx
  · simp [diffStep, h]
  · rw [not_ne_iff] at h
    simp [diffStep, h]

theorem diffStep_fst_other (back : BufferF) (acc : (Nat → Cell) × List Nat) (idx j : Nat)
    (hj : j ≠ idx) : (diffStep back acc idx).1 j = acc.1 j := by
  by_cases h : back.Cells idx ≠ acc.1 idx
  · simp [diffStep, h, hj]
  · simp [diffStep, h]

/-- After the diff fold, the front holds the back cell at every
visited index and is untouched elsewhere. -/
theorem diffFold_fst (back : BufferF) :
    ∀ (P : List Nat) (f : Nat → Cell) (w : List Nat) (idx : Nat),
      ((P.foldl (diffStep back) (f, w)).1) idx
        = if idx ∈ P then back.Cells idx else f idx := by
  intro P
  induction P with
  | nil => intro f w idx; simp
  | cons x t ih =>
      intro f w idx
      simp only [List.foldl_cons]
      have hstep : diffStep back (f, w) x
          = ((diffStep back (f, w) x).1, (diffStep back (f, w) x).2) := rfl
      rw [hstep, ih]
      by_cases ht : idx ∈ t
      · rw [if_pos ht, if_pos (List.mem_cons_of_mem x ht)]
      · rw [if_neg ht]
        by_cases hx : idx = x
        · subst hx
          rw [if_pos (List.mem_cons_self _ _), diffStep_fst_self]
        · rw [diffStep_fst_other back (f, w) x idx hx,
            if_neg (by simp [hx, ht])]

/-- When every visited front cell already equals the back cell, the
diff fold does nothing. -/
theorem diffFold_noop (back : BufferF) :
    ∀ (P : List Nat) (f : Nat → Cell) (w : List Nat),
      (∀ idx ∈ P, f idx = back.Cells idx) →
      P.foldl (diffStep back) (f, w) = (f, w) := by
  intro P
  induction P with
  | nil => intro f w _; rfl
  | cons x t ih =>
      intro f w hall
      simp only [List.foldl_cons]
      have hx : diffStep back (f, w) x = (f, w) := by
        have h0 : back.Cells x = f x := (hall x (List.mem_cons_self _ _)).symm
        simp [diffStep, h0]
      rw [hx]
      exact ih f w fun idx hidx => hall idx (List.mem_cons_of_mem x hidx)

/-- The diff fold only appends to the write list. -/
theorem diffFold_writes_mono (back : BufferF) :
    ∀ (P : List Nat) (f : Nat → Cell) (w : List Nat),
      ∃ ext, (P.foldl (diffStep back) (f, w)).2 = w ++ ext := by
  intro P
  induction P with
  | nil => intro f w; exact ⟨[], by simp⟩
  | cons x t ih =>
      intro f w
      simp only [List.foldl_cons]
      by_cases h : back.Cells x ≠ f x
      · have hstep : diffStep back (f, w) x
            = (fun j => if j = x then back.Cells x else f j, w ++ [x]) := by
          simp [diffStep, h]
        rw [hstep]
        obtain ⟨ext, hext⟩ := ih _ (w ++ [x])
        exact ⟨[x] ++ ext, by rw [hext, List.append_assoc]⟩
      · have hstep : diffStep back (f, w) x = (f, w) := by
          simp [diffStep, h]
        rw [hstep]
        exact ih f w

/-- When every visited front cell differs from the back cell, every
visited index is written. -/
theorem diffFold_cover (back : BufferF) :
    ∀ (P : List Nat) (f : Nat → Cell) (w : List Nat), P.Nodup →
      (∀ idx ∈ P, f idx ≠ back.Cells idx) →
      ∀ idx ∈ P, idx ∈ (P.foldl (diffStep back) (f, w)).2 := by
  intro P
  induction P with
  | nil => intro f w _ _ idx hidx; exact absurd hidx (List.not_mem_nil _)
  | cons x t ih =>
      intro f w hnd hall idx hidx
      simp only [List.foldl_cons]
      have hneq : back.Cells x ≠ f x :=
        fun hEq => (hall x (List.mem_cons_self _ _)) hEq.symm
      have hstep : diffStep back (f, w) x
          = (fun j => if j = x then back.Cells x else f j, w ++ [x]) := by
        simp [diffStep, hneq]
      rw [hstep]
      rcases List.mem_cons.mp hidx with rfl | hmem
      · obtain ⟨ext, hext⟩ := diffFold_writes_mono back t
          (fun j => if j = idx then back.Cells idx else f j) (w ++ [idx])
        rw [hext]
        simp
      · refine ih _ (w ++ [x]) (List.Nodup.of_cons hnd) ?_ idx hmem
        intro i hi
        have hix : i ≠ x := fun hEq =>
          (List.nodup_cons.mp hnd).1 (hEq ▸ hi)
        rw [if_neg hix]
        exact hall i (List.mem_cons_of_mem x hi)

/-! ### Row-major enumeration lemmas -/

theorem rowMajor_lt (W : Nat) : ∀ (H : Nat), ∀ idx ∈ rowMajor W H, idx < W * H := by
  intro H
  induction H with
  | zero => intro idx hidx; exact absurd hidx (List.not_mem_nil _)
  | succ h ih =>
      intro idx hidx
      rcases List.mem_append.mp hidx with hp | hr
      · have := ih idx hp
        calc idx < W * h := this
          _ ≤ W * (h + 1) := Nat.mul_le_mul_left W (Nat.le_succ h)
      · obtain ⟨x, hx, rfl⟩ := List.mem_map.mp hr
        have hxW := List.mem_range.mp hx
        calc h * W + x < h * W + W := by omega
          _ = W * (h + 1) := by ring

theorem rowMajor_mem_of_lt (W H idx : Nat) (h : idx < W * H) : idx ∈ rowMajor W H := by
  have hW : 0 < W := by
    rcases Nat.eq_zero_or_pos W with rfl | hW
    · simp at h
    · exact hW
  induction H with
  | zero => simp at h
  | succ k ih =>
      show idx ∈ rowMajor W k ++ (List.range W).map (fun x => k * W + x)
      rcases Nat.lt_or_ge idx (W * k) with hlt | hge
      · exact List.mem_append.mpr (Or.inl (ih hlt))
      · refine List.mem_append.mpr (Or.inr ?_)
        refine List.mem_map.mpr ⟨idx - k * W, List.mem_range.mpr ?_, ?_⟩
        · have h1 : W * k = k * W := Nat.mul_comm W k
          have h2 : W * (k + 1) = W * k + W := Nat.mul_succ W k
          omega
        · have h1 : W * k = k * W := Nat.mul_comm W k
          show k * W + (idx - k * W) = idx
          omega

theorem rowMajor_nodup (W : Nat) : ∀ H : Nat, (rowMajor W H).Nodup := by
  intro H
  induction H with
  | zero => exact List.nodup_nil
  | succ h ih =>
      refine List.Nodup.append ih ?_ ?_
      · refine List.Nodup.map ?_ (List.nodup_range W)
        exact fun a b hab => Nat.add_left_cancel hab
      · intro a ha hb
        have h1 := rowMajor_lt W h a ha
        obtain ⟨x, hx, hxa⟩ := List.mem_map.mp hb
        have := List.mem_range.mp hx
        have : W * h = h * W := Nat.mul_comm W h
        omega

/-! ### Buffer invariants: dimensions and non-blank cells -/

theorem bufSet_dims (b : BufferF) (x y : Int) (ch : Nat) (st : Style) :
    (bufSet b x y ch st).Width = b.Width ∧ (bufSet b x y ch st).Height = b.Height := by
  unfold bufSet
  split
  · exact ⟨rfl, rfl⟩
  · exact ⟨rfl, rfl⟩

theorem drawTextGo_dims (x : Int) (st : Style) :
    ∀ (text : List Nat) (b : BufferF) (col y : Int),
      (drawTextGo b x st text col y).Width = b.Width
      ∧ (drawTextGo b x st text col y).Height = b.Height := by
  intro text
  induction text with
  | nil => intro b col y; exact ⟨rfl, rfl⟩
  | cons r rest ih =>
      intro b col y
      have hunf : drawTextGo b x st (r :: rest) col y
          = if r = 10 then drawTextGo b x st rest x (y + 1)
            else drawTextGo (bufSet b col y r st) x st rest (col + 1) y := rfl
      rw [hunf]
      by_cases hr : r = 10
      · rw [if_pos hr]; exact ih b x (y + 1)
      · rw [if_neg hr]
        obtain ⟨hw, hh⟩ := ih (bufSet b col y r st) (col + 1) y
        exact ⟨hw.trans (bufSet_dims b col y r st).1,
          hh.trans (bufSet_dims b col y r st).2⟩

theorem applyOps_dims : ∀ (ops : List DrawOp) (b : BufferF),
    (applyOps ops b).Width = b.Width ∧ (applyOps ops b).Height = b.Height := by
  intro ops
  induction ops with
  | nil => intro b; exact ⟨rfl, rfl⟩
  | cons op rest ih =>
      intro b
      show (applyOps rest (drawTextUnlocked b op.x op.y op.text op.style)).Width = b.Width
        ∧ (applyOps rest (drawTextUnlocked b op.x op.y op.text op.style)).Height = b.Height
      obtain ⟨hw, hh⟩ := ih (drawTextUnlocked b op.x op.y op.text op.style)
      obtain ⟨hw2, hh2⟩ := drawTextGo_dims op.x op.style op.text b op.x op.y
      exact ⟨hw.trans hw2, hh.trans hh2⟩

/-- Every cell of the buffer holds a non-zero rune (so it differs
from the zero-filled invalidated front). -/
def NonNull (b : BufferF) : Prop := ∀ idx, (b.Cells idx).Char ≠ 0

theorem bufSet_nonnull (b : BufferF) (x y : Int) (ch : Nat) (st : Style)
    (hch : ch ≠ 0) (hb : NonNull b) : NonNull (bufSet b x y ch st) := by
  intro idx
  unfold bufSet
  split
  · exact hb idx
  · show ((if idx = (y * b.Width + x).toNat then ({ Char := ch, CStyle := st } : Cell)
      else b.Cells idx)).Char ≠ 0
    split
    · exact hch
    · exact hb idx

theorem drawTextGo_nonnull (x : Int) (st : Style) :
    ∀ (text : List Nat), (∀ r ∈ text, r ≠ 0) →
      ∀ (b : BufferF) (col y : Int), NonNull b →
        NonNull (drawTextGo b x st text col y) := by
  intro text
  induction text with
  | nil => intro _ b col y hb; exact hb
  | cons r rest ih =>
      intro hall b col y hb
      have hrest : ∀ r2 ∈ rest, r2 ≠ 0 := fun r2 h2 => hall r2 (List.mem_cons_of_mem r h2)
      have hunf : drawTextGo b x st (r :: rest) col y
          = if r = 10 then drawTextGo b x st rest x (y + 1)
            else drawTextGo (bufSet b col y r st) x st rest (col + 1) y := rfl
      rw [hunf]
      by_cases hr : r = 10
      · rw [if_pos hr]; exact ih hrest b x (y + 1) hb
      · rw [if_neg hr]
        exact ih hrest _ (col + 1) y
          (bufSet_nonnull b col y r st (hall r (List.mem_cons_self _ _)) hb)

theorem applyOps_nonnull : ∀ (ops : List DrawOp),
    (∀ op ∈ ops, ∀ r ∈ op.text, r ≠ 0) →
    ∀ (b : BufferF), NonNull b → NonNull (applyOps ops b) := by
  intro ops
  induction ops with
  | nil => intro _ b hb; exact hb
  | cons op rest ih =>
      intro hall b hb
      show NonNull (applyOps rest (drawTextUnlocked b op.x op.y op.text op.style))
      exact ih (fun o ho => hall o (List.mem_cons_of_mem op ho)) _
        (drawTextGo_nonnull op.x op.style op.text
          (hall op (List.mem_cons_self _ _)) b op.x op.y hb)

/-- When the front buffer is zero-filled and the drawn texts contain
no NUL rune, the frame's diff emits a write for every cell of the
back buffer's grid. -/
theorem frame_writes_cover (s : ScreenM) (ops : List DrawOp)
    (hops : ∀ op ∈ ops, ∀ r ∈ op.text, r ≠ 0)
    (hfront : ∀ i, s.Front.Cells i = zeroCell) :
    ∀ idx, idx < s.Back.Width * s.Back.Height → idx ∈ (frame s ops).2 := by
  intro idx hidx
  have hd := applyOps_dims ops { s.Back with Cells := fun _ => spaceCell }
  have hnn : NonNull (applyOps ops { s.Back with Cells := fun _ => spaceCell }) :=
    applyOps_nonnull ops hops _ (fun _ => (by decide : (32 : Nat) ≠ 0))
  show idx ∈ ((rowMajor (applyOps ops { s.Back with Cells := fun _ => spaceCell }).Width
      (applyOps ops { s.Back with Cells := fun _ => spaceCell }).Height).foldl
      (diffStep (applyOps ops { s.Back with Cells := fun _ => spaceCell }))
      (s.Front.Cells, [])).2
  refine diffFold_cover _ _ _ _ (rowMajor_nodup _ _) ?_ idx ?_
  · intro i _ hEq
    apply hnn i
    rw [← hEq, hfront i]
    rfl
  · exact rowMajor_mem_of_lt _ _ idx (by rw [hd.1, hd.2]; exact hidx)

/-- After the diff loop, every cell of the front buffer within the
back buffer's grid equals the corresponding back cell, so a second
diff against the unchanged back buffer emits nothing. -/
theorem render_syncs (front back : BufferF) :
    (∀ idx, idx < back.Width * back.Height →
      (renderUnlocked ⟨front, back⟩).1.Cells idx = back.Cells idx)
    ∧ (renderUnlocked ⟨(renderUnlocked ⟨front, back⟩).1, back⟩).2 = [] := by
  constructor
  · intro idx hidx
    show ((rowMajor back.Width back.Height).foldl (diffStep back) (front.Cells, [])).1 idx
        = back.Cells idx
    rw [diffFold_fst, if_pos (rowMajor_mem_of_lt _ _ idx hidx)]
  · have hvis : ∀ idx ∈ rowMajor back.Width back.Height,
        ((rowMajor back.Width back.Height).foldl (diffStep back) (front.Cells, [])).1 idx
          = back.Cells idx := by
      intro idx hidx
      rw [diffFold_fst, if_pos hidx]
    show ((rowMajor back.Width back.Height).foldl (diffStep back)
        (((rowMajor back.Width back.Height).foldl (diffStep back) (front.Cells, [])).1, [])).2
      = []
    rw [diffFold_noop back _ _ _ hvis]

/-- C9: modelled from the spec, since the resize-signal handler is
absent from the sources (only `Buffer.Resize` and `NewScreen` are
present): on a terminal-size change the handler re-queries the size
`(w, h)`, resizes both buffers to it, and zero-fills the front
buffer; consequently the next `Frame`, whose drawn texts contain no
NUL rune, emits a cell write for every index of the new `w·h` grid —
a full redraw. -/
theorem C9_resize_forces_full_redraw (s : ScreenM) (w h : Nat) (ops : List DrawOp)
    (hops : ∀ op ∈ ops, ∀ r ∈ op.text, r ≠ 0) :
    (handleResize s w h).Front.Width = w
    ∧ (handleResize s w h).Front.Height = h
    ∧ (handleResize s w h).Back.Width = w
    ∧ (handleResize s w h).Back.Height = h
    ∧ (∀ idx, (handleResize s w h).Front.Cells idx = zeroCell)
    ∧ (∀ idx, idx < w * h → idx ∈ (frame (handleResize s w h) ops).2) :=
  ⟨rfl, rfl, rfl, rfl, fun _ => rfl,
    fun idx hidx => frame_writes_cover (handleResize s w h) ops hops (fun _ => rfl) idx hidx⟩

theorem C9_resize_forces_full_redraw_witness :
    (∀ op ∈ ([⟨0, 0, [65], {}⟩] : List DrawOp), ∀ r ∈ op.text, r ≠ 0)
    ∧ ((handleResize ⟨NewBuffer 1 1, NewBuffer 1 1⟩ 2 1).Front.Width = 2
      ∧ (handleResize ⟨NewBuffer 1 1, NewBuffer 1 1⟩ 2 1).Front.Height = 1
      ∧ (handleResize ⟨NewBuffer 1 1, NewBuffer 1 1⟩ 2 1).Back.Width = 2
      ∧ (handleResize ⟨NewBuffer 1 1, NewBuffer 1 1⟩ 2 1).Back.Height = 1
      ∧ (∀ idx, (handleResize ⟨NewBuffer 1 1, NewBuffer 1 1⟩ 2 1).Front.Cells idx = zeroCell)
      ∧ (∀ idx, idx < 2 * 1 →
          idx ∈ (frame (handleResize ⟨NewBuffer 1 1, NewBuffer 1 1⟩ 2 1)
            [⟨0, 0, [65], {}⟩]).2)) :=
  ⟨by decide,
    C9_resize_forces_full_redraw ⟨NewBuffer 1 1, NewBuffer 1 1⟩ 2 1
      [⟨0, 0, [65], {}⟩] (by decide)⟩

/-- C10: for a screen whose front and back buffers have equal
dimensions, after the diff loop of `renderUnlocked` (and hence after
`Frame`) every cell of the front buffer equals the corresponding back
cell — the loop copies each differing back cell into the front — so
an immediately repeated diff with an unchanged back buffer emits no
cell writes. -/
theorem C10_frame_syncs_front_to_back (s : ScreenM) (ops : List DrawOp)
    (_hW : s.Front.Width = s.Back.Width) (_hH : s.Front.Height = s.Back.Height) :
    (∀ idx, idx < s.Back.Width * s.Back.Height →
      (renderUnlocked s).1.Cells idx = s.Back.Cells idx)
    ∧ (renderUnlocked ⟨(renderUnlocked s).1, s.Back⟩).2 = []
    ∧ (∀ idx, idx < s.Back.Width * s.Back.Height →
      (frame s ops).1.Front.Cells idx = (frame s ops).1.Back.Cells idx)
    ∧ (renderUnlocked (frame s ops).1).2 = [] := by
  obtain ⟨h1, h2⟩ := render_syncs s.Front s.Back
  obtain ⟨h3, h4⟩ := render_syncs s.Front (applyOps ops { s.Back with Cells := fun _ => spaceCell })
  refine ⟨h1, h2, ?_, h4⟩
  intro idx hidx
  exact h3 idx (by
    have hd := applyOps_dims ops { s.Back with Cells := fun _ => spaceCell }
    rw [hd.1, hd.2]; exact hidx)

theorem C10_frame_syncs_front_to_back_witness :
    ((⟨NewBuffer 2 2, NewBuffer 2 2⟩ : ScreenM).Front.Width
        = (⟨NewBuffer 2 2, NewBuffer 2 2⟩ : ScreenM).Back.Width)
    ∧ ((⟨NewBuffer 2 2, NewBuffer 2 2⟩ : ScreenM).Front.Height
        = (⟨NewBuffer 2 2, NewBuffer 2 2⟩ : ScreenM).Back.Height)
    ∧ ((∀ idx, idx < (⟨NewBuffer 2 2, NewBuffer 2 2⟩ : ScreenM).Back.Width
            * (⟨NewBuffer 2 2, NewBuffer 2 2⟩ : ScreenM).Back.Height →
        (renderUnlocked ⟨NewBuffer 2 2, NewBuffer 2 2⟩).1.Cells idx
          = (⟨NewBuffer 2 2, NewBuffer 2 2⟩ : ScreenM).Back.Cells idx)
      ∧ (renderUnlocked ⟨(renderUnlocked ⟨NewBuffer 2 2, NewBuffer 2 2⟩).1,
          (⟨NewBuffer 2 2, NewBuffer 2 2⟩ : ScreenM).Back⟩).2 = []
      ∧ (∀ idx, idx < (⟨NewBuffer 2 2, NewBuffer 2 2⟩ : ScreenM).Back.Width
            * (⟨NewBuffer 2 2, NewBuffer 2 2⟩ : ScreenM).Back.Height →
        (frame ⟨NewBuffer 2 2, NewBuffer 2 2⟩ []).1.Front.Cells idx
          = (frame ⟨NewBuffer 2 2, NewBuffer 2 2⟩ []).1.Back.Cells idx)
      ∧ (renderUnlocked (frame ⟨NewBuffer 2 2, NewBuffer 2 2⟩ []).1).2 = []) :=
  ⟨rfl, rfl, C10_frame_syncs_front_to_back ⟨NewBuffer 2 2, NewBuffer 2 2⟩ [] rfl rfl⟩

end Basement
